import Mathlib

/-!
Verification development for the paginated invoice PDF layout engine of the
E2W finance-management repository.

The two generator modules (src/lib/pdf/modern-invoice-generator.ts and
src/lib/pdf/invoice-generator.ts) are shallowly embedded below.  Page-layout
coordinates are JavaScript IEEE doubles in the source; every constant that
occurs (595.28, 841.89, 13, 14, 20, ...) is an exact decimal, and every
comparison made by the engine has a margin vastly larger than double rounding
error, so coordinates are modelled as exact rationals.  Font metrics
("widthOfTextAtSize") are an external library call and are modelled as an
arbitrary function parameter.  A page is the ordered list of draw commands
issued against it; the generators are modelled as pure functions from the
invoice data (plus a configuration bundling the font-metric function, the
logo-availability flag, the date formatter and the ambient clock) to the list
of pages.  Each draw command carries a provenance mark naming the source draw
call that emitted it, so that "the footer appears exactly once on a page" and
similar statements can be expressed by counting marks.
-/

namespace E2W

set_option maxRecDepth 20000

/-- Font handles embedded by the generators (Helvetica and Helvetica-Bold). -/
inductive FontKind where
  | regular
  | bold
deriving DecidableEq, Repr

/-- Provenance tag recording which source-level draw call emitted a command.
Only the draw calls that some claim needs to identify get a dedicated tag;
all remaining draw calls are tagged `misc`. -/
inductive Mark where
  | misc
  | footerBrand
  | colHeader
  | itemTitle
  | itemAmount
  | itemDesc
  | itemDetail
  | totalValue
  | paidText
deriving DecidableEq, Repr

/-- Primitive draw commands of the canvas abstraction (pdf-lib page ops).
Colors, opacity and line thickness are constants in the source that no claim
mentions, so they are not modelled. -/
inductive Cmd where
  | text (mark : Mark) (content : String) (x y size : ℚ) (font : FontKind)
  | rect (mark : Mark) (x y w h : ℚ)
  | line (x1 y1 x2 y2 : ℚ)
  | image (x y : ℚ)
deriving DecidableEq, Repr

/-- Rendering event stream: all drawing targets the current page, and
`newPage` (pdfDoc.addPage) opens a fresh current page.  The page list of the
finished document is recovered by splitting the stream at `newPage`. -/
inductive Event where
  | draw (c : Cmd)
  | newPage
deriving DecidableEq, Repr

/-- Split an event stream into the pages it populates. -/
def toPages : List Event → List (List Cmd)
  | [] => [[]]
  | Event.draw c :: es =>
    match toPages es with
    | p :: ps => (c :: p) :: ps
    | [] => [[c]]
  | Event.newPage :: es => [] :: toPages es

/-- Two-digit zero padding for a fractional part below 100. -/
def pad2 (n : Nat) : String :=
  if n < 10 then "0" ++ toString n else toString n

/-- Model of JavaScript Number.prototype.toFixed(2): round to the nearest
hundredth, ties toward the larger value. -/
def toFixed2 (q : ℚ) : String :=
  let n : Int := Rat.floor (q * 100 + 1 / 2)
  let m := n.natAbs
  (if n < 0 then "-" else "") ++ toString (m / 100) ++ "." ++ pad2 (m % 100)

/-- Insert a thousands separator after every third character of a reversed
digit list (helper for the en-US locale number format). -/
def commaGroupRev : List Char → List Char
  | a :: b :: c :: d :: rest => a :: b :: c :: ',' :: commaGroupRev (d :: rest)
  | l => l

/-- Model of toLocaleString with en-US grouping and exactly two fraction
digits, as used for line-item amounts. -/
def toLocaleString2 (q : ℚ) : String :=
  let n : Int := Rat.floor (q * 100 + 1 / 2)
  let m := n.natAbs
  let intDigits := (toString (m / 100)).toList
  (if n < 0 then "-" else "") ++
    String.mk (commaGroupRev intDigits.reverse).reverse ++ "." ++ pad2 (m % 100)

/-- JavaScript-style fallback on an optional string: both a missing value and
the empty string (which is falsy) fall through to the alternative. -/
def orElseStr (o : Option String) (alt : String) : String :=
  match o with
  | some s => if s = "" then alt else s
  | none => alt

/-- Currency-symbol lookup of the modern generator, with the raw code as the
fallback for unknown codes. -/
def getCurrencySymbol (currency : String) : String :=
  if currency = "BDT" then "৳"
  else if currency = "USD" then "$"
  else if currency = "GBP" then "£"
  else if currency = "EUR" then "€"
  else currency

/-!
The greedy text wrapper.  Both generators contain the identical inline loop:
accumulate words into `line`; when the candidate line would overflow
`maxWidth` and `line` is nonempty, flush `line` and restart from the
offending word; after the loop flush the remaining nonempty `line`.
-/

/-- Greedy line-fill loop over the word list, with `line` the accumulator. -/
def wrapWords (widthOf : String → ℚ) (maxWidth : ℚ) :
    List String → String → List String
  | [], line => if line ≠ "" then [line] else []
  | word :: words, line =>
    let testLine := line ++ (if line ≠ "" then " " else "") ++ word
    if widthOf testLine > maxWidth ∧ line ≠ "" then
      line :: wrapWords widthOf maxWidth words word
    else
      wrapWords widthOf maxWidth words testLine

/-- Split a character list at spaces, keeping empty segments, with `acc` the
reversed current segment (model of JavaScript String.split(' ')). -/
def splitChars : List Char → List Char → List (List Char)
  | [], acc => [acc.reverse]
  | c :: cs, acc =>
    if c = ' ' then acc.reverse :: splitChars cs []
    else splitChars cs (c :: acc)

/-- Model of JavaScript String.split(' '): split at every single space,
keeping empty segments. -/
def splitOnSpace (s : String) : List String :=
  (splitChars s.toList []).map String.mk

/-- Text wrapper entry point: split on single spaces (String.split(' ') in
the source) and run the greedy loop with an empty accumulator. -/
def wrap (widthOf : String → ℚ → ℚ) (fontSize maxWidth : ℚ) (text : String) :
    List String :=
  wrapWords (fun s => widthOf s fontSize) maxWidth (splitOnSpace text) ""

/-!
Data model of the modern generator (the interfaces of
modern-invoice-generator.ts).  Optional fields are `Option`; JavaScript
truthiness tests on strings are modelled by `orElseStr` (empty string falsy)
and on numbers by explicit nonzero tests at the use sites.  Dates are carried
as strings and formatted through the `Config.formatDate` parameter.
-/

structure InvoiceMetadata where
  client : Option String := none
  project : Option String := none
  duration : Option String := none
  invoiceNumber : Option String := none
  notes : Option String := none
  billingAddress : Option (List String) := none
  fromName : Option String := none
  fromAddress : Option (List String) := none
deriving DecidableEq, Repr

structure LineItem where
  title : String
  description : Option String := none
  details : Option (List String) := none
  quantity : Option ℚ := none
  rate : Option ℚ := none
  amount : ℚ
  category : Option String := none
deriving DecidableEq, Repr

structure InvoiceTotals where
  subtotal : Option ℚ := none
  tax : Option ℚ := none
  taxRate : Option ℚ := none
  discount : Option ℚ := none
  total : ℚ
deriving DecidableEq, Repr

structure Transaction where
  id : String := ""
  payee : String := ""
  category : String := ""
  ttype : String := ""
  amount : ℚ := 0
  currency : String := ""
  amountBDT : ℚ := 0
  date : Option String := none
  dueDate : Option String := none
  paymentStatus : String := ""
  description : Option String := none
  invoiceNumber : Option String := none
deriving DecidableEq, Repr

structure ModernInvoiceData where
  metadata : Option InvoiceMetadata := none
  lineItems : List LineItem
  totals : Option InvoiceTotals := none
  transaction : Option Transaction := none
  isPaid : Option Bool := none
  currency : Option String := none
  invoiceDate : Option String := none
deriving DecidableEq, Repr

/-- Environment of one generator invocation: the font-metric oracle
(widthOfTextAtSize of the embedded fonts) and whether the logo file loads.
The locale date formatter and the ambient clock are passed separately to the
top-level generator, because only the invoice-date resolution reads them. -/
structure Config where
  widthOfTextAtSize : FontKind → String → ℚ → ℚ
  logoOk : Bool

/-- A4 page width in points. -/
def pageWidth : ℚ := 595.28

/-- A4 page height in points. -/
def pageHeight : ℚ := 841.89

/-- Space reserved for the footer band. -/
def FOOTER_HEIGHT : ℚ := 80

/-- Minimum Y before a new page is needed. -/
def MIN_CONTENT_Y : ℚ := FOOTER_HEIGHT + 20

/-- Draw commands of the addFooter helper (footer band on one page). -/
def footerCmds (invoiceNumber : String) : List Cmd :=
  [ Cmd.rect Mark.misc 0 0 pageWidth 60,
    Cmd.text Mark.footerBrand "E2W Global" 50 35 9 FontKind.regular,
    Cmd.text Mark.misc "e2w.global" 50 20 8 FontKind.regular,
    Cmd.text Mark.misc ("Invoice " ++ invoiceNumber) (pageWidth - 150) 28 8
      FontKind.regular ]

/-- Footer draw events on the current page. -/
def footerEvents (invoiceNumber : String) : List Event :=
  (footerCmds invoiceNumber).map Event.draw

/-- Pagination event sequence shared by every overflow site: addFooter on the
current page, then addNewPage (which allocates the page and immediately puts
the footer on it). -/
def pageBreak (invoiceNumber : String) : List Event :=
  footerEvents invoiceNumber ++ Event.newPage :: footerEvents invoiceNumber

/-- Draw commands of the line-items table header whose top edge sits at y. -/
def tableHeaderCmds (y : ℚ) : List Cmd :=
  [ Cmd.rect Mark.misc 50 (y - 28) (pageWidth - 100) 28,
    Cmd.text Mark.colHeader "DESCRIPTION" 60 (y - 18) 9 FontKind.bold,
    Cmd.text Mark.misc "AMOUNT" (pageWidth - 130) (y - 18) 9 FontKind.bold ]

/-- Header, invoice-info and first table header of the first page
(source lines 168-397), returning the draw commands together with the cursor
position at which the first line item will be placed. -/
def headerCmds (cfg : Config)
    (client project duration invoiceNumber invoiceDate : String) :
    List Cmd × ℚ :=
  let y0 : ℚ := pageHeight - 60
  let logoPart : List Cmd :=
    if cfg.logoOk then [Cmd.image 50 (y0 - 15)]
    else [Cmd.text Mark.misc "E2W" 50 y0 24 FontKind.bold]
  let titlePart : List Cmd :=
    [Cmd.text Mark.misc "INVOICE" (pageWidth - 150) (y0 + 5) 28 FontKind.bold]
  let y1 := y0 - 60
  let linePart : List Cmd := [Cmd.line 50 y1 (pageWidth - 50) y1]
  let y2 := y1 - 50
  let leftA : List Cmd := [Cmd.text Mark.misc "BILL TO" 50 y2 9 FontKind.bold]
  let leftY1 := y2 - 22
  let leftB : List Cmd := [Cmd.text Mark.misc client 50 leftY1 14 FontKind.bold]
  let projPart : List Cmd × ℚ :=
    if project ≠ "" then
      ([Cmd.text Mark.misc ("Project: " ++ project) 50 (leftY1 - 20) 10
          FontKind.regular], leftY1 - 20)
    else ([], leftY1)
  let durPart : List Cmd × ℚ :=
    if duration ≠ "" then
      ([Cmd.text Mark.misc ("Duration: " ++ duration) 50 (projPart.2 - 18) 10
          FontKind.regular], projPart.2 - 18)
    else ([], projPart.2)
  let leftY := durPart.2
  let rightX := pageWidth - 200
  let rightPart : List Cmd :=
    [ Cmd.rect Mark.misc (rightX - 10) (y2 - 5) 160 24,
      Cmd.text Mark.misc "Invoice #" rightX (y2 + 2) 9 FontKind.regular,
      Cmd.text Mark.misc invoiceNumber
        (pageWidth - 50 - cfg.widthOfTextAtSize FontKind.bold invoiceNumber 11)
        (y2 + 2) 11 FontKind.bold,
      Cmd.text Mark.misc "Issue Date" rightX (y2 - 35) 9 FontKind.regular,
      Cmd.text Mark.misc invoiceDate
        (pageWidth - 50 - cfg.widthOfTextAtSize FontKind.regular invoiceDate 10)
        (y2 - 35) 10 FontKind.regular,
      Cmd.text Mark.misc "FROM" rightX (y2 - 75) 9 FontKind.bold,
      Cmd.text Mark.misc "E2W" rightX (y2 - 95) 11 FontKind.bold,
      Cmd.text Mark.misc "316 Wensley Road" rightX (y2 - 111) 9 FontKind.regular,
      Cmd.text Mark.misc "Reading, RG1 6DR" rightX (y2 - 125) 9 FontKind.regular,
      Cmd.text Mark.misc "United Kingdom" rightX (y2 - 139) 9 FontKind.regular,
      Cmd.text Mark.misc "e2w.global" rightX (y2 - 157) 9 FontKind.regular ]
  let rightY := y2 - 157
  let yAfter := min leftY rightY - 50
  (logoPart ++ titlePart ++ linePart ++ leftA ++ leftB ++ projPart.1 ++
      durPart.1 ++ rightPart ++ tableHeaderCmds yAfter,
    yAfter - 45)

/-- Shape of the bullet line drawn per wrapped detail line. -/
def drawDetailLine (line : String) (y : ℚ) : Cmd :=
  Cmd.text Mark.itemDetail ("• " ++ line) 75 y 8.5 FontKind.regular

/-- Interleaved word-wrap/draw/paginate loop for one detail bullet
(source lines 497-538), threading the vertical cursor.  A wrapped
continuation line that lands below MIN_CONTENT_Y triggers a page break with
no repeated table header. -/
def wrapLoop (cfg : Config) (invoiceNumber : String) :
    List String → String → ℚ → List Event × ℚ
  | [], line, y =>
    if line ≠ "" then ([Event.draw (drawDetailLine line y)], y - 13)
    else ([], y)
  | word :: words, line, y =>
    let testLine := line ++ (if line ≠ "" then " " else "") ++ word
    let testWidth := cfg.widthOfTextAtSize FontKind.regular testLine 8.5
    if testWidth > 380 ∧ line ≠ "" then
      let y1 := y - 13
      if y1 < MIN_CONTENT_Y then
        let rest := wrapLoop cfg invoiceNumber words word (pageHeight - 80)
        (Event.draw (drawDetailLine line y) :: (pageBreak invoiceNumber ++ rest.1),
          rest.2)
      else
        let rest := wrapLoop cfg invoiceNumber words word y1
        (Event.draw (drawDetailLine line y) :: rest.1, rest.2)
    else
      wrapLoop cfg invoiceNumber words testLine y

/-- One detail bullet: space pre-check (a detail that cannot fit even one
line forces a break, again with no repeated header), then the wrap loop. -/
def detailEvents (cfg : Config) (invoiceNumber : String) (detail : String)
    (y : ℚ) : List Event × ℚ :=
  if y - 14 < MIN_CONTENT_Y then
    let rest := wrapLoop cfg invoiceNumber (splitOnSpace detail) ""
      (pageHeight - 80)
    (pageBreak invoiceNumber ++ rest.1, rest.2)
  else
    wrapLoop cfg invoiceNumber (splitOnSpace detail) "" y

/-- All detail bullets of one item, in order. -/
def detailsEvents (cfg : Config) (invoiceNumber : String) :
    List String → ℚ → List Event × ℚ
  | [], y => ([], y)
  | d :: ds, y =>
    let one := detailEvents cfg invoiceNumber d y
    let rest := detailsEvents cfg invoiceNumber ds one.2
    (one.1 ++ rest.1, rest.2)

/-- JavaScript truthiness of the optional description string. -/
def descPresent (item : LineItem) : Bool :=
  match item.description with
  | some s => s != ""
  | none => false

/-- Estimated height of a whole item: title + optional description + details
at 14pt per bullet + inter-item padding (source lines 408-411). -/
def estimatedItemHeight (item : LineItem) : ℚ :=
  18 + (if descPresent item then 16 else 0) +
    (match item.details with
     | some ds => (ds.length : ℚ) * 14
     | none => 0) + 25

/-- One line item (source lines 403-554): estimate-based page check (this is
the only pagination site that re-renders the table header), then title and
right-aligned amount, optional description, detail bullets, inter-item
padding, and a separator line for every item but the last. -/
def itemEvents (cfg : Config) (sym invoiceNumber : String) (isLast : Bool)
    (idx : ℕ) (item : LineItem) (y : ℚ) : List Event × ℚ :=
  let est := estimatedItemHeight item
  let brk : List Event × ℚ :=
    if y - est < MIN_CONTENT_Y then
      (pageBreak invoiceNumber ++
          (tableHeaderCmds (pageHeight - 80)).map Event.draw,
        pageHeight - 80 - 45)
    else ([], y)
  let y0 := brk.2
  let amountText := sym ++ toLocaleString2 item.amount
  let amountWidth := cfg.widthOfTextAtSize FontKind.regular amountText 11
  let titleDraws : List Event :=
    [ Event.draw (Cmd.text Mark.itemTitle
        (toString (idx + 1) ++ ". " ++ item.title) 60 y0 11 FontKind.bold),
      Event.draw (Cmd.text Mark.itemAmount amountText
        (pageWidth - 60 - amountWidth) y0 11 FontKind.regular) ]
  let y1 := y0 - 20
  let descPart : List Event × ℚ :=
    match item.description with
    | some s =>
      if s ≠ "" then
        ([Event.draw (Cmd.text Mark.itemDesc s 75 y1 9 FontKind.regular)],
          y1 - 16)
      else ([], y1)
    | none => ([], y1)
  let detailPart := detailsEvents cfg invoiceNumber (item.details.getD [])
    descPart.2
  let y4 := detailPart.2 - 15
  let sepPart : List Event × ℚ :=
    if isLast then ([], y4)
    else ([Event.draw (Cmd.line 60 y4 (pageWidth - 60) y4)], y4 - 18)
  (brk.1 ++ titleDraws ++ descPart.1 ++ detailPart.1 ++ sepPart.1, sepPart.2)

/-- The item loop, numbering items from idx. -/
def itemsEvents (cfg : Config) (sym invoiceNumber : String) :
    List LineItem → ℕ → ℚ → List Event × ℚ
  | [], _, y => ([], y)
  | item :: rest, idx, y =>
    let one := itemEvents cfg sym invoiceNumber rest.isEmpty idx item y
    let more := itemsEvents cfg sym invoiceNumber rest (idx + 1) one.2
    (one.1 ++ more.1, more.2)

/-- Running subtotal accumulated over the item loop. -/
def calculatedSubtotal (items : List LineItem) : ℚ :=
  items.foldl (fun s it => s + it.amount) 0

/-- A breakdown exists when any of subtotal, tax or discount is present
(undefined-check, not truthiness, in the source). -/
def hasBreakdown (t : InvoiceTotals) : Bool :=
  t.subtotal.isSome || t.tax.isSome || t.discount.isSome

/-- Optional subtotal, discount and tax lines of the totals box, each behind
its JavaScript truthiness guard, followed by the separator line (source
lines 588-665). -/
def totalsBreakdownEvents (cfg : Config) (sym : String) (t : InvoiceTotals)
    (y0 : ℚ) : List Event × ℚ :=
  let totalsX := pageWidth - 250
  if hasBreakdown t then
    let subPart : List Event × ℚ :=
      match t.subtotal with
      | some s =>
        if s ≠ 0 then
          let str := sym ++ toFixed2 s
          ([ Event.draw (Cmd.text Mark.misc "Subtotal" totalsX y0 10
               FontKind.regular),
             Event.draw (Cmd.text Mark.misc str
               (pageWidth - 70 - cfg.widthOfTextAtSize FontKind.regular str 10)
               y0 10 FontKind.regular) ], y0 - 20)
        else ([], y0)
      | none => ([], y0)
    let disPart : List Event × ℚ :=
      match t.discount with
      | some d =>
        if d ≠ 0 ∧ d > 0 then
          let str := "-" ++ sym ++ toFixed2 d
          ([ Event.draw (Cmd.text Mark.misc "Discount" totalsX subPart.2 10
               FontKind.regular),
             Event.draw (Cmd.text Mark.misc str
               (pageWidth - 70 - cfg.widthOfTextAtSize FontKind.regular str 10)
               subPart.2 10 FontKind.regular) ], subPart.2 - 20)
        else ([], subPart.2)
      | none => ([], subPart.2)
    let taxPart : List Event × ℚ :=
      match t.tax with
      | some x =>
        if x ≠ 0 ∧ x > 0 then
          let label :=
            match t.taxRate with
            | some r => if r ≠ 0 then "Tax (" ++ toString r ++ "%)" else "Tax"
            | none => "Tax"
          let str := sym ++ toFixed2 x
          ([ Event.draw (Cmd.text Mark.misc label totalsX disPart.2 10
               FontKind.regular),
             Event.draw (Cmd.text Mark.misc str
               (pageWidth - 70 - cfg.widthOfTextAtSize FontKind.regular str 10)
               disPart.2 10 FontKind.regular) ], disPart.2 - 20)
        else ([], disPart.2)
      | none => ([], disPart.2)
    (subPart.1 ++ disPart.1 ++ taxPart.1 ++
        [Event.draw (Cmd.line totalsX (taxPart.2 + 5) (pageWidth - 70)
          (taxPart.2 + 5))],
      taxPart.2 - 12)
  else ([], y0)

/-- Totals section (source lines 557-684): its own space check (no repeated
header on break), summary box, the optional breakdown, then the bold TOTAL
line.  The returned cursor is the vertical position of the totals box top,
which the PAID stamp and the notes block reuse. -/
def totalsEvents (cfg : Config) (sym invoiceNumber : String)
    (t : InvoiceTotals) (y : ℚ) : List Event × ℚ :=
  let boxH : ℚ := if hasBreakdown t then 120 else 60
  let brk : List Event × ℚ :=
    if y - boxH < MIN_CONTENT_Y then (pageBreak invoiceNumber, pageHeight - 80)
    else ([], y)
  let y0 := brk.2
  let boxRect : List Event :=
    [Event.draw (Cmd.rect Mark.misc (pageWidth - 270) (y0 - boxH + 10) 220 boxH)]
  let totalsX := pageWidth - 250
  let breakdown := totalsBreakdownEvents cfg sym t y0
  let ty := breakdown.2
  let totalStr := sym ++ toFixed2 t.total
  let totalDraws : List Event :=
    [ Event.draw (Cmd.text Mark.misc "TOTAL" totalsX ty 12 FontKind.bold),
      Event.draw (Cmd.text Mark.totalValue totalStr
        (pageWidth - 70 - cfg.widthOfTextAtSize FontKind.bold totalStr 16)
        (ty - 2) 16 FontKind.bold) ]
  (brk.1 ++ boxRect ++ breakdown.1 ++ totalDraws, y0)

/-- PAID stamp (source lines 690-715): drawn only when isPaid and only when
the stamp position is still above MIN_CONTENT_Y. -/
def paidEvents (isPaid : Bool) (y : ℚ) : List Event :=
  if isPaid then
    let stampY := y - 100
    if stampY > MIN_CONTENT_Y then
      [ Event.draw (Cmd.rect Mark.misc (120 - 45) (stampY - 15) 90 35),
        Event.draw (Cmd.text Mark.paidText "PAID" (120 - 30) (stampY - 8) 24
          FontKind.bold) ]
    else []
  else []

/-- Notes block (source lines 721-741), drawn only when nonempty and enough
room remains above the footer band. -/
def notesEvents (notes : String) (y boxH : ℚ) : List Event :=
  let footerY := y - boxH - 40
  if notes ≠ "" ∧ footerY > MIN_CONTENT_Y + 60 then
    [ Event.draw (Cmd.text Mark.misc "NOTES" 50 footerY 9 FontKind.bold),
      Event.draw (Cmd.text Mark.misc notes 50 (footerY - 18) 9
        FontKind.regular) ]
  else []

/-- Invoice date resolution (source line 161): the supplied invoiceDate when
truthy, else the formatted transaction date, else the formatted clock. -/
def resolveInvoiceDate (formatDate : String → String) (now : String)
    (data : ModernInvoiceData) : String :=
  orElseStr data.invoiceDate
    (match data.transaction with
     | some tr =>
       match tr.date with
       | some d => formatDate d
       | none => formatDate now
     | none => formatDate now)

/-- Currency resolution (source line 152). -/
def resolveCurrency (data : ModernInvoiceData) : String :=
  orElseStr data.currency
    (orElseStr (data.transaction.map Transaction.currency) "GBP")

/-- Invoice-number resolution (source line 160). -/
def resolveInvoiceNumber (data : ModernInvoiceData) : String :=
  orElseStr (data.metadata.bind InvoiceMetadata.invoiceNumber)
    (orElseStr (data.transaction.bind Transaction.invoiceNumber) "INV-001")

/-- Totals resolution (source line 563): the supplied totals object, or the
accumulated subtotal when none was supplied. -/
def resolveTotals (data : ModernInvoiceData) : InvoiceTotals :=
  data.totals.getD { total := calculatedSubtotal data.lineItems }

/-- Whole-document event stream given the already-resolved invoice date; the
clock is not consulted anywhere in here. -/
def documentEvents (cfg : Config) (data : ModernInvoiceData)
    (invoiceDate : String) : List Event :=
  let currencySymbol := getCurrencySymbol (resolveCurrency data)
  let isPaid := data.isPaid.getD false
  let client := orElseStr (data.metadata.bind InvoiceMetadata.client)
    (orElseStr (data.transaction.map Transaction.payee) "Client")
  let project := orElseStr (data.metadata.bind InvoiceMetadata.project) ""
  let duration := orElseStr (data.metadata.bind InvoiceMetadata.duration) ""
  let invoiceNumber := resolveInvoiceNumber data
  let notes := orElseStr (data.metadata.bind InvoiceMetadata.notes) ""
  let head := headerCmds cfg client project duration invoiceNumber invoiceDate
  let items := itemsEvents cfg currencySymbol invoiceNumber data.lineItems 0
    head.2
  let totals := resolveTotals data
  let boxH : ℚ := if hasBreakdown totals then 120 else 60
  let tot := totalsEvents cfg currencySymbol invoiceNumber totals
    (items.2 - 35)
  head.1.map Event.draw ++ items.1 ++ tot.1 ++
    paidEvents isPaid tot.2 ++ notesEvents notes tot.2 boxH ++
    footerEvents invoiceNumber

/-- Whole-document rendering given the already-resolved invoice date. -/
def renderDocument (cfg : Config) (data : ModernInvoiceData)
    (invoiceDate : String) : List (List Cmd) :=
  toPages (documentEvents cfg data invoiceDate)

/-- The modern invoice generator: resolve the invoice date (the only place
the ambient clock can be read) and render. -/
def generateModernInvoicePDF (cfg : Config) (formatDate : String → String)
    (now : String) (data : ModernInvoiceData) : List (List Cmd) :=
  renderDocument cfg data (resolveInvoiceDate formatDate now data)

/-- Lower bound actually consumed by one item when no pagination occurs:
title line, optional description line, at least one 13pt line per detail
bullet, and the inter-item padding (the separator is ignored). -/
def minItemHeight (it : LineItem) : ℚ :=
  20 + (if descPresent it then 16 else 0) +
    13 * ((it.details.getD []).length : ℚ) + 15

/-- Sum of the per-item consumption lower bounds. -/
def sumMinHeight (items : List LineItem) : ℚ :=
  (items.map minItemHeight).sum

/-- Cumulative estimated height of a line-item list. -/
def sumEstimatedHeight (items : List LineItem) : ℚ :=
  (items.map estimatedItemHeight).sum

/-- Content area of one fresh page: from the top-of-content offset, past the
repeated column-header block, down to MIN_CONTENT_Y. -/
def pageContentArea : ℚ := (pageHeight - FOOTER_HEIGHT - 45) - MIN_CONTENT_Y

/-- Concrete configuration for evaluations: width of a string is its
character count in points. -/
def cfgUnit : Config :=
  { widthOfTextAtSize := fun _ s _ => ((s.length : ℚ))
    logoOk := true }

/-- Identity date formatter for concrete evaluations. -/
def fmtId : String → String := fun s => s

/-- Fixed clock value for concrete evaluations. -/
def dateStub : String := "1 January 2026"

/-- Concrete configuration in which every candidate line overflows the wrap
width, so every flushed detail line is a single word. -/
def cfgWide : Config :=
  { widthOfTextAtSize := fun _ _ _ => (400 : ℚ)
    logoOk := true }

/-- Line item with a given number of empty-string detail bullets: each adds
14pt to the height estimate but renders no line at all. -/
def itemEmptyDetails (d : Nat) : LineItem :=
  { title := "Work", amount := 10, details := some (List.replicate d "") }

/-- Input whose cumulative estimated height (928pt) exceeds a whole page yet
renders on a single page: the empty-string bullets inflate every estimate
while consuming no vertical space. -/
def dataEstimateGap : ModernInvoiceData :=
  { lineItems :=
      [itemEmptyDetails 19, itemEmptyDetails 15, itemEmptyDetails 12,
        itemEmptyDetails 8] }

/-- Fifteen plain items: cumulative estimate 645pt, paginates onto a second
page. -/
def dataManyItems : ModernInvoiceData :=
  { lineItems := List.replicate 15 { title := "Work", amount := 10 } }

/-- Provenance mark of a command (line and image draws carry no mark in the
model; they are never counted). -/
def cmdMark : Cmd → Mark
  | Cmd.text m _ _ _ _ _ => m
  | Cmd.rect m _ _ _ _ => m
  | Cmd.line _ _ _ _ => Mark.misc
  | Cmd.image _ _ => Mark.misc

/-- Text content of a command (empty for non-text commands). -/
def cmdContent : Cmd → String
  | Cmd.text _ s _ _ _ _ => s
  | _ => ""

/-- Vertical position of a command. -/
def cmdY : Cmd → ℚ
  | Cmd.text _ _ _ y _ _ => y
  | Cmd.rect _ _ y _ _ => y
  | Cmd.line _ y1 _ _ => y1
  | Cmd.image _ y => y

/-- Commands emitted by the addFooter brand text (one per footer band). -/
def isBrandCmd (c : Cmd) : Bool := cmdMark c == Mark.footerBrand

/-- Number of footer bands drawn on a page, counted by the brand text that
addFooter emits exactly once per invocation. -/
def brandCount (p : List Cmd) : ℕ := p.countP (fun c => isBrandCmd c)

/-- Draw commands of an event stream, in order. -/
def drawsOf (es : List Event) : List Cmd :=
  es.filterMap (fun e =>
    match e with
    | Event.draw c => some c
    | Event.newPage => none)

/-- Number of page allocations in an event stream. -/
def countNewPages (es : List Event) : ℕ :=
  es.countP (fun e =>
    match e with
    | Event.newPage => true
    | Event.draw _ => false)

/-- Number of repeated column headers on a page, counted by the DESCRIPTION
text the table-header block emits exactly once. -/
def colHeaderCount (p : List Cmd) : ℕ :=
  p.countP (fun c => cmdMark c == Mark.colHeader)

/-- Number of itemDetail lines on a page. -/
def detailLineCount (p : List Cmd) : ℕ :=
  p.countP (fun c => cmdMark c == Mark.itemDetail)

/-- One line item whose single detail bullet wraps into 26 single-word lines
under cfgWide, so the wrap loop itself paginates mid-bullet. -/
def itemWrapLong : LineItem :=
  { title := "A", amount := 1, details := some ["w w w w w w w w w w w w w w w w w w w w w w w w w w"] }

/-- Document that paginates through a wrapped continuation line. -/
def dataWrapBreak : ModernInvoiceData := { lineItems := [itemWrapLong] }

/-- Line-item sub-element draws: item title, item amount, description line,
detail line. -/
def isSubElemCmd (c : Cmd) : Bool :=
  cmdMark c == Mark.itemTitle || cmdMark c == Mark.itemAmount ||
    cmdMark c == Mark.itemDesc || cmdMark c == Mark.itemDetail

/-- Placeholder command returned by out-of-range page indexing; it is not a
sub-element. -/
def blankCmd : Cmd := Cmd.image 0 0

/-- Single-item document for concrete witnesses. -/
def dataOneItem : ModernInvoiceData :=
  { lineItems := [{ title := "Work", amount := 10 }] }

/-- Marks that line-item rendering can emit (including pagination footers
and the re-drawn column header). -/
def itemMarks : List Mark :=
  [Mark.misc, Mark.footerBrand, Mark.colHeader, Mark.itemTitle,
    Mark.itemAmount, Mark.itemDesc, Mark.itemDetail]

/-- Content strings of the TOTAL value draws on a command list. -/
def totalValueTexts (cs : List Cmd) : List String :=
  cs.filterMap (fun c =>
    if cmdMark c = Mark.totalValue then some (cmdContent c) else none)

/-- Number of PAID stamp texts on a command list. -/
def paidTextCount (cs : List Cmd) : ℕ :=
  cs.countP (fun c => cmdMark c == Mark.paidText)

/-- Four plain items tuned so the totals box still fits but the PAID stamp
position falls below MIN_CONTENT_Y: the stamp is skipped although the
document is marked paid. -/
def dataPaidNoRoom : ModernInvoiceData :=
  { lineItems := List.replicate 4 { title := "Work", amount := 10 }
    isPaid := some true }

/-- One-item paid document with plenty of room: the stamp is drawn. -/
def dataPaidRoom : ModernInvoiceData :=
  { lineItems := [{ title := "Work", amount := 10 }], isPaid := some true }

/-- Supplied totals object whose total (999) disagrees with the line-item
sum (100). -/
def dataTotalsMismatch : ModernInvoiceData :=
  { lineItems := [{ title := "Work", amount := 100 }]
    totals := some { total := 999 } }

/-- Supplied totals object without breakdown fields, for the C6 witness. -/
def dataTotalsPlain : ModernInvoiceData :=
  { lineItems := [{ title := "Work", amount := 100 }]
    totals := some { total := 250 } }

/-!
Model of the invoice-generation API route
(src/app/api/invoices/generate/route.ts).  Request numbers are JavaScript
doubles, which may be non-finite; the validation code only inspects the
line-item array.
-/

inductive JsNumber where
  | finite (q : ℚ)
  | nan
  | inf (negative : Bool)
deriving DecidableEq, Repr

def JsNumber.isFinite : JsNumber → Bool
  | JsNumber.finite _ => true
  | _ => false

structure GenerateLineItem where
  title : String := ""
  description : Option String := none
  details : Option (List String) := none
  amount : JsNumber := JsNumber.finite 0
deriving DecidableEq, Repr

structure GenerateTotals where
  subtotal : Option JsNumber := none
  tax : Option JsNumber := none
  taxRate : Option JsNumber := none
  discount : Option JsNumber := none
  total : JsNumber
deriving DecidableEq, Repr

structure GenerateRequest where
  metadata : Option InvoiceMetadata := none
  lineItems : Option (List GenerateLineItem) := none
  totals : Option GenerateTotals := none
  isPaid : Option Bool := none
  currency : Option String := none
  invoiceDate : Option String := none
deriving DecidableEq, Repr

/-- Validation of the POST handler (route source lines 8-14): reject with
400 exactly when the lineItems array is missing or empty; afterwards the
handler calls generateModernInvoicePDF unconditionally.  No field of totals
is inspected. -/
def validateGenerateRequest (req : GenerateRequest) : Bool :=
  match req.lineItems with
  | none => false
  | some [] => false
  | some (_ :: _) => true

/-- Request with one line item and a non-finite (NaN) total. -/
def reqNanTotal : GenerateRequest :=
  { lineItems := some [{ title := "Work", amount := JsNumber.nan }]
    totals := some { total := JsNumber.nan } }

/-!
Model of the legacy generator (invoice-generator.ts).  It allocates exactly
one A4 page up front and issues every draw against it; there is no
pagination logic at all, so the command list is a single page.  Locale and
calendar formatting (month names, en-GB dates, end-of-month) are
environment functions.
-/

/-- Wrap of a signed integer into JavaScript 32-bit two's complement. -/
def toInt32 (n : Int) : Int := (n + 2 ^ 31).emod (2 ^ 32) - 2 ^ 31

/-- The hashString helper: hash = ((hash << 5) - hash) + code, coerced back
to int32 by the bitwise and (character codes taken as code points; the
source uses UTF-16 units, which agree on the basic plane). -/
def hashString (s : String) : Int :=
  s.foldl (fun h c => toInt32 (toInt32 (h * 32) - h + (c.toNat : Int))) 0

/-- Zero-pad a number to four digits (padStart(4, '0')). -/
def pad4 (n : Nat) : String :=
  let s := toString n
  String.mk (List.replicate (4 - s.length) '0') ++ s

/-- Environment of a legacy-generator invocation: font metrics, logo
availability and the locale/calendar formatters. -/
structure LegacyEnv where
  widthOfTextAtSize : FontKind → String → ℚ → ℚ
  logoOk : Bool
  monthShortUpper : String → String
  formatDateGB : String → String
  endOfMonthGB : String → String
  monthYearGB : String → String

/-- Legacy detailed line item. -/
structure InvoiceLineItem where
  title : String
  details : Option (List String) := none
  amount : ℚ
deriving DecidableEq, Repr

/-- Legacy generator input. -/
structure InvoiceData where
  transaction : Transaction
  isPaid : Bool
  invoiceNumber : String := ""
  invoiceDate : String := ""
  lineItems : Option (List InvoiceLineItem) := none
  duration : Option String := none
  projectName : Option String := none
deriving Repr

/-- Legacy getInvoiceNumber: the stored number when truthy, else a hash of
payee and month. -/
def getInvoiceNumber (env : LegacyEnv) (tr : Transaction) : String :=
  match tr.invoiceNumber with
  | some s =>
    if s ≠ "" then s
    else
      let month := env.monthShortUpper (tr.date.getD "")
      "INV-" ++ month ++ "-" ++
        pad4 ((hashString (tr.payee ++ month)).natAbs % 10000)
  | none =>
    let month := env.monthShortUpper (tr.date.getD "")
    "INV-" ++ month ++ "-" ++
      pad4 ((hashString (tr.payee ++ month)).natAbs % 10000)

/-- Legacy getInvoiceDate: the formatted due date when present, else the
formatted end of the transaction month. -/
def getInvoiceDate (env : LegacyEnv) (tr : Transaction) : String :=
  match tr.dueDate with
  | some d => env.formatDateGB d
  | none => env.endOfMonthGB (tr.date.getD "")

/-- Legacy currency-symbol lookup (BDT keeps its code). -/
def getCurrencySymbolLegacy (currency : String) : String :=
  if currency = "BDT" then "BDT"
  else if currency = "USD" then "$"
  else if currency = "GBP" then "£"
  else if currency = "EUR" then "€"
  else currency

/-- Legacy inline word-wrap for one detail bullet: 350pt max width at 9pt,
indented at 86.4, stepping 10.8 per line, with no pagination check of any
kind. -/
def legacyWrapLoop (wof : FontKind → String → ℚ → ℚ) :
    List String → String → ℚ → List Cmd × ℚ
  | [], line, y =>
    if line ≠ "" then
      ([Cmd.text Mark.itemDetail ("• " ++ line) 86.4 y 9 FontKind.regular],
        y - 10.8)
    else ([], y)
  | word :: words, line, y =>
    let testLine := line ++ (if line ≠ "" then " " else "") ++ word
    if wof FontKind.regular testLine 9 > 350 ∧ line ≠ "" then
      let rest := legacyWrapLoop wof words word (y - 10.8)
      (Cmd.text Mark.itemDetail ("• " ++ line) 86.4 y 9 FontKind.regular ::
        rest.1, rest.2)
    else
      legacyWrapLoop wof words testLine y

/-- All detail bullets of one legacy item. -/
def legacyDetailsCmds (wof : FontKind → String → ℚ → ℚ) :
    List String → ℚ → List Cmd × ℚ
  | [], y => ([], y)
  | d :: ds, y =>
    let one := legacyWrapLoop wof (splitOnSpace d) "" y
    let rest := legacyDetailsCmds wof ds one.2
    (one.1 ++ rest.1, rest.2)

/-- One legacy detailed line item (source lines 281-352). -/
def legacyItemCmds (wof : FontKind → String → ℚ → ℚ)
    (item : InvoiceLineItem) (y : ℚ) : List Cmd × ℚ :=
  let y1 := y - 14.4
  let amountStr := toLocaleString2 item.amount
  let titleDraws : List Cmd :=
    [ Cmd.text Mark.itemTitle item.title 72 y1 10 FontKind.bold,
      Cmd.text Mark.itemAmount amountStr
        (pageWidth - 72 - wof FontKind.regular amountStr 10) y1 10
        FontKind.regular ]
  let y2 := y1 - 11.52
  let details := legacyDetailsCmds wof (item.details.getD []) y2
  (titleDraws ++ details.1, details.2 - 7.2)

/-- The legacy item loop. -/
def legacyItemsCmds (wof : FontKind → String → ℚ → ℚ) :
    List InvoiceLineItem → ℚ → List Cmd × ℚ
  | [], y => ([], y)
  | it :: its, y =>
    let one := legacyItemCmds wof it y
    let rest := legacyItemsCmds wof its one.2
    (one.1 ++ rest.1, rest.2)

/-- Draw commands of the legacy generator (invoice-generator.ts,
generateInvoicePDF): header band, addresses, table, items or single legacy
row, total, optional PAID stamp and bottom bar - all issued against the one
page allocated up front. -/
def legacyCmds (env : LegacyEnv) (d : InvoiceData) : List Cmd :=
  let tr := d.transaction
  let invoiceNumber := getInvoiceNumber env tr
  let invoiceDate := getInvoiceDate env tr
  let headerCmdsL : List Cmd :=
    [Cmd.rect Mark.misc 0 (pageHeight - 144) pageWidth 144] ++
    (if env.logoOk then [Cmd.image (pageWidth - 180) (pageHeight - 108)]
      else []) ++
    [ Cmd.text Mark.misc "INVOICE" 57.6 (pageHeight - 86.4) 30 FontKind.bold,
      Cmd.text Mark.misc ("Invoice No: " ++ invoiceNumber) 57.6
        (pageHeight - 115.2) 10 FontKind.regular,
      Cmd.text Mark.misc ("Date: " ++ invoiceDate) 57.6 (pageHeight - 129.6)
        10 FontKind.regular ] ++
    (match d.projectName with
     | some pn => [Cmd.text Mark.misc ("Project: " ++ pn) 288
         (pageHeight - 115.2) 9 FontKind.regular]
     | none => []) ++
    (match d.duration with
     | some du => [Cmd.text Mark.misc ("Duration: " ++ du) 288
         (pageHeight - 115.2 -
           ((if d.projectName.isSome then (1 : ℚ) else 0) * 14.4)) 9
         FontKind.regular]
     | none => [])
  let yAddress := pageHeight - 216
  let isExpense := tr.ttype = "EXPENSE"
  let addressCmds : List Cmd :=
    [ Cmd.text Mark.misc (if isExpense then "BILL FROM" else "FROM") 57.6
        yAddress 10 FontKind.bold,
      Cmd.text Mark.misc (if isExpense then tr.payee else "E2W") 57.6
        (yAddress - 18) 12 FontKind.regular,
      Cmd.text Mark.misc (if isExpense then "BILL TO" else "TO") 288 yAddress
        10 FontKind.bold,
      Cmd.text Mark.misc (if isExpense then "E2W" else tr.payee) 288
        (yAddress - 18) 12 FontKind.regular,
      Cmd.text Mark.misc "316, Wensley Road" 288 (yAddress - 32.4) 10
        FontKind.regular,
      Cmd.text Mark.misc "Reading, United Kingdom, RG16DR" 288
        (yAddress - 43.2) 10 FontKind.regular,
      Cmd.text Mark.misc "e2w.global" 288 (yAddress - 54) 10
        FontKind.regular ]
  let yTable := pageHeight - 360
  let currencySymbol := getCurrencySymbolLegacy tr.currency
  let currencyLabel :=
    if tr.currency = "BDT" then "AMOUNT (BDT)"
    else "AMOUNT (" ++ currencySymbol ++ ")"
  let tableCmds : List Cmd :=
    [ Cmd.rect Mark.misc 57.6 yTable (pageWidth - 115.2) 28.8,
      Cmd.text Mark.misc "DESCRIPTION" 72 (yTable + 8.64) 10 FontKind.bold,
      Cmd.text Mark.misc currencyLabel (pageWidth - 145) (yTable + 8.64) 10
        FontKind.bold ]
  let y0 := yTable - 14.4
  let rows : List Cmd × ℚ :=
    match d.lineItems with
    | some items =>
      if items.length > 0 then
        let body := legacyItemsCmds env.widthOfTextAtSize items y0
        let ySep := body.2 - 7.2
        (body.1 ++ [Cmd.line 57.6 ySep (pageWidth - 57.6) ySep], ySep)
      else
        let y1 := y0 - 14.4
        let desc :=
          (if tr.category = "OTHER EXPENSES" then tr.payee else tr.category)
            ++ " - " ++ env.monthYearGB (tr.date.getD "")
        let displayAmount :=
          if tr.currency = "BDT" then tr.amountBDT else tr.amount
        let amountStr := toLocaleString2 displayAmount
        ([ Cmd.text Mark.misc desc 72 y1 10 FontKind.regular,
           Cmd.text Mark.misc amountStr
             (pageWidth - 72 - env.widthOfTextAtSize FontKind.regular
               amountStr 10) y1 10 FontKind.regular,
           Cmd.line 57.6 (y1 - 14.4) (pageWidth - 57.6) (y1 - 14.4) ],
          y1 - 14.4)
    | none =>
      let y1 := y0 - 14.4
      let desc :=
        (if tr.category = "OTHER EXPENSES" then tr.payee else tr.category)
          ++ " - " ++ env.monthYearGB (tr.date.getD "")
      let displayAmount :=
        if tr.currency = "BDT" then tr.amountBDT else tr.amount
      let amountStr := toLocaleString2 displayAmount
      ([ Cmd.text Mark.misc desc 72 y1 10 FontKind.regular,
         Cmd.text Mark.misc amountStr
           (pageWidth - 72 - env.widthOfTextAtSize FontKind.regular amountStr
             10) y1 10 FontKind.regular,
         Cmd.line 57.6 (y1 - 14.4) (pageWidth - 57.6) (y1 - 14.4) ],
        y1 - 14.4)
  let yTotal := rows.2 - 28.8
  let totalAmount :=
    match d.lineItems with
    | some items =>
      if items.length > 0 then
        items.foldl (fun s it => s + it.amount) 0
      else if tr.currency = "BDT" then tr.amountBDT else tr.amount
    | none => if tr.currency = "BDT" then tr.amountBDT else tr.amount
  let totalStr := currencySymbol ++ " " ++ toLocaleString2 totalAmount
  let totalCmds : List Cmd :=
    [ Cmd.text Mark.misc "TOTAL" 288 yTotal 14 FontKind.bold,
      Cmd.text Mark.totalValue totalStr
        (pageWidth - 72 - env.widthOfTextAtSize FontKind.bold totalStr 14)
        yTotal 14 FontKind.bold ]
  let stampCmds : List Cmd :=
    if d.isPaid then
      let stampX := pageWidth - 180
      [ Cmd.rect Mark.misc (stampX - 86.4) (108 - 25.2) 172.8 50.4,
        Cmd.rect Mark.misc (stampX - 82.8) (108 - 21.6) 165.6 43.2,
        Cmd.text Mark.paidText "PAID"
          (stampX - env.widthOfTextAtSize FontKind.bold "PAID" 36 / 2)
          (108 - 10) 36 FontKind.bold ]
    else []
  let barCmds : List Cmd := [Cmd.rect Mark.misc 0 0 pageWidth 36]
  headerCmdsL ++ addressCmds ++ tableCmds ++ rows.1 ++ totalCmds ++
    stampCmds ++ barCmds

/-- The legacy generator: a single addPage call, every draw against that
page, no pagination anywhere. -/
def generateInvoicePDF (env : LegacyEnv) (d : InvoiceData) :
    List (List Cmd) :=
  toPages ((legacyCmds env d).map Event.draw)

/-- Legacy environment with unit-width metrics for evaluations. -/
def envUnit : LegacyEnv :=
  { widthOfTextAtSize := fun _ s _ => ((s.length : ℚ))
    logoOk := true
    monthShortUpper := fun _ => "JAN"
    formatDateGB := fun s => s
    endOfMonthGB := fun s => s
    monthYearGB := fun s => s }

/-- Thirty plain legacy items, enough to push the table far below the page
bottom. -/
def dataLegacyBig : InvoiceData :=
  { transaction := { payee := "P", currency := "GBP", date := some "d" }
    isPaid := false
    lineItems := some (List.replicate 30 { title := "T", amount := 1 }) }

/-- Well-formed pagination streams: a sequence of brand-free draws in which
every page allocation appears inside the addFooter-addNewPage pattern (a
footer block on the outgoing page, the allocation, a footer block on the
fresh page). -/
inductive PagStream (inv : String) : List Event → Prop where
  | nil : PagStream inv []
  | draw (c : Cmd) (es : List Event) (hc : isBrandCmd c = false)
      (h : PagStream inv es) : PagStream inv (Event.draw c :: es)
  | brk (es : List Event) (h : PagStream inv es) :
      PagStream inv (pageBreak inv ++ es)

theorem drawsOf_nil : drawsOf [] = [] := rfl

theorem drawsOf_cons_draw (c : Cmd) (es : List Event) :
    drawsOf (Event.draw c :: es) = c :: drawsOf es := rfl

theorem drawsOf_cons_newPage (es : List Event) :
    drawsOf (Event.newPage :: es) = drawsOf es := rfl

theorem drawsOf_append (a b : List Event) :
    drawsOf (a ++ b) = drawsOf a ++ drawsOf b :=
  List.filterMap_append _ _ _

theorem drawsOf_map_draw (cs : List Cmd) : drawsOf (cs.map Event.draw) = cs := by
  induction cs with
  | nil => rfl
  | cons c cs ih => simpa [drawsOf] using ih

theorem toPages_ne_nil (es : List Event) : toPages es ≠ [] := by
  induction es with
  | nil => simp [toPages]
  | cons e es ih =>
    cases e with
    | draw c =>
      cases h : toPages es with
      | nil => exact absurd h ih
      | cons p ps => simp [toPages, h]
    | newPage => simp [toPages]

theorem toPages_eq_cons (es : List Event) :
    toPages es = (toPages es).headD [] :: (toPages es).tail := by
  cases h : toPages es with
  | nil => exact absurd h (toPages_ne_nil es)
  | cons p ps => rfl

theorem toPages_draw (c : Cmd) (es : List Event) :
    toPages (Event.draw c :: es) =
      (c :: (toPages es).headD []) :: (toPages es).tail := by
  cases h : toPages es with
  | nil => exact absurd h (toPages_ne_nil es)
  | cons p ps => simp [toPages, h]

theorem toPages_newPage (es : List Event) :
    toPages (Event.newPage :: es) = [] :: toPages es := rfl

theorem toPages_append_draws (cs : List Cmd) (es : List Event) :
    toPages (cs.map Event.draw ++ es) =
      (cs ++ (toPages es).headD []) :: (toPages es).tail := by
  induction cs with
  | nil => simpa using toPages_eq_cons es
  | cons c cs ih =>
    simp only [List.map_cons, List.cons_append, toPages_draw, ih]
    simp

theorem length_toPages (es : List Event) :
    (toPages es).length = countNewPages es + 1 := by
  induction es with
  | nil => rfl
  | cons e es ih =>
    cases e with
    | draw c =>
      rw [toPages_draw]
      have h2 : (toPages es).length = (toPages es).tail.length + 1 := by
        conv_lhs => rw [toPages_eq_cons es]
        simp
      have h3 : countNewPages (Event.draw c :: es) = countNewPages es := by
        simp [countNewPages, List.countP_cons]
      rw [h3, List.length_cons]
      omega
    | newPage =>
      rw [toPages_newPage]
      have h3 : countNewPages (Event.newPage :: es) = countNewPages es + 1 := by
        simp [countNewPages, List.countP_cons]
      rw [h3, List.length_cons]
      omega

theorem flatten_toPages (es : List Event) :
    (toPages es).flatten = drawsOf es := by
  induction es with
  | nil => rfl
  | cons e es ih =>
    cases e with
    | draw c =>
      rw [toPages_draw, drawsOf_cons_draw, ← ih]
      conv_rhs => rw [toPages_eq_cons es]
      simp
    | newPage =>
      rw [toPages_newPage, drawsOf_cons_newPage, ← ih]
      simp

theorem mem_drawsOf_of_mem_toPages {c : Cmd} {p : List Cmd} {es : List Event}
    (hp : p ∈ toPages es) (hc : c ∈ p) : c ∈ drawsOf es := by
  rw [← flatten_toPages]
  exact List.mem_flatten.mpr ⟨p, hp, hc⟩

theorem str_append_ne_left {a b : String} (h : a ≠ "") : a ++ b ≠ "" := by
  intro hc
  apply h
  have hlen := congrArg String.length hc
  rw [String.length_append] at hlen
  have h0 : ("" : String).length = 0 := rfl
  have : a.length = 0 := by omega
  exact String.ext (List.length_eq_zero.mp this)

theorem str_append_ne_right {a b : String} (h : b ≠ "") : a ++ b ≠ "" := by
  intro hc
  apply h
  have hlen := congrArg String.length hc
  rw [String.length_append] at hlen
  have h0 : ("" : String).length = 0 := rfl
  have : b.length = 0 := by omega
  exact String.ext (List.length_eq_zero.mp this)

theorem newPage_mem_pageBreak (inv : String) : Event.newPage ∈ pageBreak inv := by
  simp [pageBreak]

/-- Without pagination the wrap loop never raises the cursor. -/
theorem wrapLoop_y_le (cfg : Config) (inv : String) :
    ∀ (ws : List String) (line : String) (y : ℚ),
      Event.newPage ∉ (wrapLoop cfg inv ws line y).1 →
      (wrapLoop cfg inv ws line y).2 ≤ y := by
  intro ws
  induction ws with
  | nil =>
    intro line y _
    simp only [wrapLoop]
    split
    · norm_num
    · exact le_refl y
  | cons word words ih =>
    intro line y hnp
    simp only [wrapLoop] at hnp ⊢
    by_cases hguard : cfg.widthOfTextAtSize FontKind.regular
        (line ++ (if line ≠ "" then " " else "") ++ word) 8.5 > 380 ∧ line ≠ ""
    · rw [if_pos hguard] at hnp ⊢
      by_cases hbrk : y - 13 < MIN_CONTENT_Y
      · rw [if_pos hbrk] at hnp
        exact absurd (by
          simp only [List.mem_cons, List.mem_append]
          exact Or.inr (Or.inl (newPage_mem_pageBreak inv))) hnp
      · rw [if_neg hbrk] at hnp ⊢
        have h1 : Event.newPage ∉
            (wrapLoop cfg inv words word (y - 13)).1 := fun hmem =>
          hnp (List.mem_cons_of_mem _ hmem)
        have := ih word (y - 13) h1
        dsimp only
        linarith
    · rw [if_neg hguard] at hnp ⊢
      exact ih _ y hnp

/-- Without pagination, a wrap-loop run that has something to flush (a
nonempty accumulator or some nonempty word) lowers the cursor by at least
one detail line height. -/
theorem wrapLoop_y_flush (cfg : Config) (inv : String) :
    ∀ (ws : List String) (line : String) (y : ℚ),
      Event.newPage ∉ (wrapLoop cfg inv ws line y).1 →
      (line ≠ "" ∨ ∃ w ∈ ws, w ≠ "") →
      (wrapLoop cfg inv ws line y).2 ≤ y - 13 := by
  intro ws
  induction ws with
  | nil =>
    intro line y _ hfl
    have hline : line ≠ "" := by
      rcases hfl with h | ⟨w, hw, _⟩
      · exact h
      · exact absurd hw (List.not_mem_nil w)
    simp only [wrapLoop, if_pos hline]
    exact le_refl _
  | cons word words ih =>
    intro line y hnp hfl
    simp only [wrapLoop] at hnp ⊢
    by_cases hguard : cfg.widthOfTextAtSize FontKind.regular
        (line ++ (if line ≠ "" then " " else "") ++ word) 8.5 > 380 ∧ line ≠ ""
    · rw [if_pos hguard] at hnp ⊢
      by_cases hbrk : y - 13 < MIN_CONTENT_Y
      · rw [if_pos hbrk] at hnp
        exact absurd (by
          simp only [List.mem_cons, List.mem_append]
          exact Or.inr (Or.inl (newPage_mem_pageBreak inv))) hnp
      · rw [if_neg hbrk] at hnp ⊢
        have h1 : Event.newPage ∉
            (wrapLoop cfg inv words word (y - 13)).1 := fun hmem =>
          hnp (List.mem_cons_of_mem _ hmem)
        have := wrapLoop_y_le cfg inv words word (y - 13) h1
        dsimp only
        linarith
    · rw [if_neg hguard] at hnp ⊢
      refine ih _ y hnp ?_
      rcases hfl with h | hex
      · exact Or.inl (str_append_ne_left (str_append_ne_left h))
      · rcases hex with ⟨w, hw, hwne⟩
        rcases List.mem_cons.mp hw with rfl | hw2
        · exact Or.inl (str_append_ne_right hwne)
        · exact Or.inr ⟨w, hw2, hwne⟩

/-- Without pagination a detail bullet containing some nonempty word lowers
the cursor by at least one line height. -/
theorem detailEvents_y_flush (cfg : Config) (inv : String) (d : String)
    (y : ℚ) (hnp : Event.newPage ∉ (detailEvents cfg inv d y).1)
    (hw : ∃ w ∈ splitOnSpace d, w ≠ "") :
    (detailEvents cfg inv d y).2 ≤ y - 13 := by
  simp only [detailEvents] at hnp ⊢
  by_cases hpre : y - 14 < MIN_CONTENT_Y
  · rw [if_pos hpre] at hnp
    exact absurd (by
      simp only [List.mem_append]
      exact Or.inl (newPage_mem_pageBreak inv)) hnp
  · rw [if_neg hpre] at hnp ⊢
    exact wrapLoop_y_flush cfg inv _ "" y hnp (Or.inr hw)

/-- Without pagination the sequence of detail bullets, each containing some
nonempty word, lowers the cursor by at least 13 points per bullet. -/
theorem detailsEvents_y (cfg : Config) (inv : String) :
    ∀ (ds : List String) (y : ℚ),
      Event.newPage ∉ (detailsEvents cfg inv ds y).1 →
      (∀ d ∈ ds, ∃ w ∈ splitOnSpace d, w ≠ "") →
      (detailsEvents cfg inv ds y).2 ≤ y - 13 * ds.length := by
  intro ds
  induction ds with
  | nil => intro y _ _; simp [detailsEvents]
  | cons d ds ih =>
    intro y hnp hall
    simp only [detailsEvents] at hnp ⊢
    have h1 : Event.newPage ∉ (detailEvents cfg inv d y).1 := fun hmem =>
      hnp (List.mem_append.mpr (Or.inl hmem))
    have h2 : Event.newPage ∉
        (detailsEvents cfg inv ds (detailEvents cfg inv d y).2).1 := fun hmem =>
      hnp (List.mem_append.mpr (Or.inr hmem))
    have ha := detailEvents_y_flush cfg inv d y h1 (hall d (List.mem_cons_self d ds))
    have hb := ih _ h2 (fun x hx => hall x (List.mem_cons_of_mem d hx))
    simp only [List.length_cons]
    push_cast
    linarith

theorem wrapWords_mem (widthOf : String → ℚ) (maxWidth : ℚ) :
    ∀ (ws : List String) (line L : String),
      L ∈ wrapWords widthOf maxWidth ws line →
      widthOf L ≤ maxWidth ∨ L ∈ ws ∨ (L = line ∧ line ≠ "") := by
  intro ws
  induction ws with
  | nil =>
    intro line L hL
    simp only [wrapWords] at hL
    by_cases h : line ≠ ""
    · simp [h] at hL
      exact Or.inr (Or.inr ⟨hL, h⟩)
    · simp [h] at hL
  | cons word words ih =>
    intro line L hL
    simp only [wrapWords] at hL
    by_cases hcond : widthOf (line ++ (if line ≠ "" then " " else "") ++ word) > maxWidth ∧ line ≠ ""
    · rw [if_pos hcond] at hL
      rcases List.mem_cons.mp hL with h | h
      · exact Or.inr (Or.inr ⟨h, hcond.2⟩)
      · rcases ih word L h with h1 | h1 | h1
        · exact Or.inl h1
        · exact Or.inr (Or.inl (List.mem_cons_of_mem _ h1))
        · exact Or.inr (Or.inl (h1.1 ▸ List.mem_cons_self _ _))
    · rw [if_neg hcond] at hL
      rcases ih _ L hL with h1 | h1 | h1
      · exact Or.inl h1
      · exact Or.inr (Or.inl (List.mem_cons_of_mem _ h1))
      · -- L is the candidate line; the failed guard says it fits or line was empty
        rcases h1 with ⟨rfl, _⟩
        by_cases hline : line = ""
        · subst hline
          refine Or.inr (Or.inl ?_)
          simp
        · rcases not_and_or.mp hcond with h2 | h2
          · exact Or.inl (not_lt.mp h2)
          · exact absurd (not_not.mp h2) hline

/-- Claim C3: every line emitted by the greedy wrapper fits within
maxWidth, except that a single input word wider than maxWidth stands alone
as its own untouched output line. -/
theorem wrap_sound (widthOf : String → ℚ → ℚ) (fontSize maxWidth : ℚ)
    (text : String) (L : String) (hL : L ∈ wrap widthOf fontSize maxWidth text) :
    widthOf L fontSize ≤ maxWidth ∨
      (maxWidth < widthOf L fontSize ∧ L ∈ splitOnSpace text) := by
  rcases wrapWords_mem (fun s => widthOf s fontSize) maxWidth _ _ _ hL with h | h | h
  · exact Or.inl h
  · rcases le_or_lt (widthOf L fontSize) maxWidth with hle | hlt
    · exact Or.inl hle
    · exact Or.inr ⟨hlt, h⟩
  · exact absurd rfl h.2

/-- Witness for wrap_sound at a concrete instance. -/
theorem wrap_sound_witness :
    "aa bb" ∈ wrap (fun s _ => (s.length : ℚ)) 1 5 "aa bb cc" ∧
      ((fun (s : String) (_ : ℚ) => (s.length : ℚ)) "aa bb" 1 ≤ 5 ∨
        (5 < (fun (s : String) (_ : ℚ) => (s.length : ℚ)) "aa bb" 1 ∧
          "aa bb" ∈ splitOnSpace "aa bb cc")) :=
  ⟨by decide,
    wrap_sound (fun s _ => (s.length : ℚ)) 1 5 "aa bb cc" "aa bb" (by decide)⟩

theorem estimatedItemHeight_le_two_mul (it : LineItem) :
    estimatedItemHeight it ≤ 2 * minItemHeight it := by
  unfold estimatedItemHeight minItemHeight
  have hd : (match it.details with
      | some ds => ((ds.length : ℚ)) * 14
      | none => 0) = 14 * ((it.details.getD []).length : ℚ) := by
    cases it.details <;> simp <;> ring
  rw [hd]
  have hnn : (0 : ℚ) ≤ ((it.details.getD []).length : ℚ) := Nat.cast_nonneg _
  by_cases hdesc : descPresent it = true
  · rw [if_pos hdesc]; linarith
  · rw [if_neg hdesc]; linarith

theorem sumEstimatedHeight_le_two_mul (items : List LineItem) :
    sumEstimatedHeight items ≤ 2 * sumMinHeight items := by
  induction items with
  | nil => simp [sumEstimatedHeight, sumMinHeight]
  | cons it items ih =>
    simp only [sumEstimatedHeight, sumMinHeight, List.map_cons, List.sum_cons]
      at ih ⊢
    have := estimatedItemHeight_le_two_mul it
    linarith

/-- Without pagination one item consumes at least its minItemHeight. -/
theorem itemEvents_y (cfg : Config) (sym inv : String) (isLast : Bool)
    (idx : ℕ) (it : LineItem) (y : ℚ)
    (hnp : Event.newPage ∉ (itemEvents cfg sym inv isLast idx it y).1)
    (hw : ∀ d ∈ it.details.getD [], ∃ w ∈ splitOnSpace d, w ≠ "") :
    (itemEvents cfg sym inv isLast idx it y).2 ≤ y - minItemHeight it := by
  simp only [itemEvents] at hnp ⊢
  by_cases hbrk : y - estimatedItemHeight it < MIN_CONTENT_Y
  · rw [if_pos hbrk] at hnp
    exact absurd (by
      simp only [List.append_assoc, List.mem_append]
      exact Or.inl (newPage_mem_pageBreak inv)) hnp
  · rw [if_neg hbrk] at hnp ⊢
    dsimp only at hnp ⊢
    have hnpD : Event.newPage ∉
        (detailsEvents cfg inv (it.details.getD [])
          (match it.description with
           | some s =>
             if s ≠ "" then
               ([Event.draw (Cmd.text Mark.itemDesc s 75 (y - 20) 9
                   FontKind.regular)], y - 20 - 16)
             else ([], y - 20)
           | none => ([], y - 20)).2).1 := by
      intro hmem
      apply hnp
      simp only [List.nil_append, List.append_assoc, List.mem_append]
      exact Or.inr (Or.inr (Or.inl hmem))
    have hdet := detailsEvents_y cfg inv (it.details.getD []) _ hnpD hw
    have hlen : (0 : ℚ) ≤ ((it.details.getD []).length : ℚ) := Nat.cast_nonneg _
    unfold minItemHeight
    cases hdescE : it.description with
    | none =>
      have h16 : (if descPresent it = true then (16 : ℚ) else 0) = 0 := by
        simp [descPresent, hdescE]
      simp only [hdescE] at hdet ⊢
      rw [h16]
      split <;> dsimp only <;> linarith
    | some s =>
      simp only [hdescE] at hdet ⊢
      by_cases hs : s ≠ ""
      · have h16 : (if descPresent it = true then (16 : ℚ) else 0) = 16 := by
          simp [descPresent, hdescE, bne_iff_ne, hs]
        rw [if_pos hs] at hdet ⊢
        dsimp only at hdet ⊢
        rw [h16]
        split <;> dsimp only <;> linarith
      · have h16 : (if descPresent it = true then (16 : ℚ) else 0) = 0 := by
          simp only [ne_eq, not_not] at hs
          simp [descPresent, hdescE, hs]
        rw [if_neg hs] at hdet ⊢
        dsimp only at hdet ⊢
        rw [h16]
        split <;> dsimp only <;> linarith

/-- Without pagination the item loop consumes at least the summed
minItemHeight of its items. -/
theorem itemsEvents_y (cfg : Config) (sym inv : String) :
    ∀ (items : List LineItem) (idx : ℕ) (y : ℚ),
      Event.newPage ∉ (itemsEvents cfg sym inv items idx y).1 →
      (∀ it ∈ items, ∀ d ∈ it.details.getD [], ∃ w ∈ splitOnSpace d, w ≠ "") →
      (itemsEvents cfg sym inv items idx y).2 ≤ y - sumMinHeight items := by
  intro items
  induction items with
  | nil => intro idx y _ _; simp [itemsEvents, sumMinHeight]
  | cons it items ih =>
    intro idx y hnp hall
    simp only [itemsEvents] at hnp ⊢
    have h1 : Event.newPage ∉
        (itemEvents cfg sym inv items.isEmpty idx it y).1 := fun hmem =>
      hnp (List.mem_append.mpr (Or.inl hmem))
    have h2 : Event.newPage ∉
        (itemsEvents cfg sym inv items (idx + 1)
          (itemEvents cfg sym inv items.isEmpty idx it y).2).1 := fun hmem =>
      hnp (List.mem_append.mpr (Or.inr hmem))
    have ha := itemEvents_y cfg sym inv items.isEmpty idx it y h1
      (hall it (List.mem_cons_self it items))
    have hb := ih (idx + 1) _ h2 (fun x hx => hall x (List.mem_cons_of_mem it hx))
    simp only [sumMinHeight, List.map_cons, List.sum_cons] at hb ⊢
    have : sumMinHeight items = (items.map minItemHeight).sum := rfl
    linarith [hb]

/-- If the totals section did not paginate, the cursor it received was at
least 160 points (MIN_CONTENT_Y plus the compact box height). -/
theorem totalsEvents_no_break (cfg : Config) (sym inv : String)
    (t : InvoiceTotals) (y : ℚ)
    (hnp : Event.newPage ∉ (totalsEvents cfg sym inv t y).1) : 160 ≤ y := by
  simp only [totalsEvents] at hnp
  by_cases hbrk : y - (if hasBreakdown t then (120 : ℚ) else 60) < MIN_CONTENT_Y
  · rw [if_pos hbrk] at hnp
    exact absurd (by
      simp only [List.append_assoc, List.mem_append]
      exact Or.inl (newPage_mem_pageBreak inv)) hnp
  · push_neg at hbrk
    rw [MIN_CONTENT_Y, FOOTER_HEIGHT] at hbrk
    by_cases hb : hasBreakdown t = true
    · rw [if_pos hb] at hbrk; linarith
    · rw [if_neg hb] at hbrk; linarith

/-- The first line item of any document is placed at cursor position 419.89,
whatever the metadata. -/
theorem headerCmds_y (cfg : Config) (c p d i j : String) :
    (headerCmds cfg c p d i j).2 = 419.89 := by
  by_cases hp : p = "" <;> by_cases hd : d = "" <;>
    simp [headerCmds, hp, hd, pageHeight, min_def] <;> norm_num

/-- Claim C1, amended: for a line-item list in which every detail bullet
contains at least one nonempty word, a cumulative estimated height exceeding
one page's content area forces more than one output page.  (The amendment
excludes bullets that are empty or all spaces: those inflate the height
estimate by 14pt each while rendering no line at all, which the
counterexample exploits.) -/
theorem estimates_overflow_forces_second_page (cfg : Config)
    (fd : String → String) (now : String) (data : ModernInvoiceData)
    (hw : ∀ it ∈ data.lineItems, ∀ d ∈ it.details.getD [],
      ∃ w ∈ splitOnSpace d, w ≠ "")
    (hest : pageContentArea < sumEstimatedHeight data.lineItems) :
    1 < (generateModernInvoicePDF cfg fd now data).length := by
  by_contra hle
  push_neg at hle
  rw [generateModernInvoicePDF, renderDocument, length_toPages] at hle
  have hcnt : countNewPages
      (documentEvents cfg data (resolveInvoiceDate fd now data)) = 0 := by
    omega
  have hnp : Event.newPage ∉
      documentEvents cfg data (resolveInvoiceDate fd now data) := by
    intro hmem
    have := List.countP_eq_zero.mp hcnt _ hmem
    simp at this
  simp only [documentEvents] at hnp
  simp only [headerCmds_y] at hnp
  simp only [List.append_assoc, List.mem_append, not_or] at hnp
  obtain ⟨-, hnpItems, hnpTot, -⟩ := hnp
  have h1 := itemsEvents_y cfg _ _ data.lineItems 0 _ hnpItems hw
  have h2 := totalsEvents_no_break cfg _ _ _ _ hnpTot
  have h3 := sumEstimatedHeight_le_two_mul data.lineItems
  have harea : pageContentArea = 616.89 := by
    norm_num [pageContentArea, pageHeight, FOOTER_HEIGHT, MIN_CONTENT_Y]
  rw [harea] at hest
  norm_num at h1 h2 hest
  linarith

/-- Claim C1 as stated is falsified by empty-string detail bullets: this
input has cumulative estimated height 928pt, far beyond one page's content
area, yet the generator emits a single page. -/
theorem claim_C1_counterexample :
    pageContentArea < sumEstimatedHeight dataEstimateGap.lineItems ∧
      (generateModernInvoicePDF cfgUnit fmtId dateStub dataEstimateGap).length = 1 :=
  ⟨by with_unfolding_all decide, by with_unfolding_all decide⟩

/-- Witness: fifteen plain items satisfy the amended hypotheses and indeed
paginate. -/
theorem estimates_overflow_forces_second_page_witness :
    (∀ it ∈ dataManyItems.lineItems, ∀ d ∈ it.details.getD [],
      ∃ w ∈ splitOnSpace d, w ≠ "") ∧
    pageContentArea < sumEstimatedHeight dataManyItems.lineItems ∧
    1 < (generateModernInvoicePDF cfgUnit fmtId dateStub dataManyItems).length :=
  ⟨by with_unfolding_all decide, by with_unfolding_all decide,
    estimates_overflow_forces_second_page cfgUnit fmtId dateStub dataManyItems
      (by with_unfolding_all decide) (by with_unfolding_all decide)⟩

theorem PagStream.append {inv : String} {a b : List Event}
    (ha : PagStream inv a) (hb : PagStream inv b) : PagStream inv (a ++ b) := by
  induction ha with
  | nil => simpa using hb
  | draw c es hc h ih => exact PagStream.draw c _ hc ih
  | brk es h ih =>
    rw [List.append_assoc]
    exact PagStream.brk _ ih

theorem PagStream.ofDraws {inv : String} (cs : List Cmd)
    (h : ∀ c ∈ cs, isBrandCmd c = false) :
    PagStream inv (cs.map Event.draw) := by
  induction cs with
  | nil => exact PagStream.nil
  | cons c cs ih =>
    exact PagStream.draw c _ (h c (List.mem_cons_self c cs))
      (ih fun x hx => h x (List.mem_cons_of_mem c hx))

theorem tableHeaderCmds_brand_free (y : ℚ) :
    ∀ c ∈ tableHeaderCmds y, isBrandCmd c = false := by
  intro c hc
  simp only [tableHeaderCmds, List.mem_cons, List.mem_singleton] at hc
  rcases hc with rfl | rfl | rfl | h
  · rfl
  · rfl
  · rfl
  · exact absurd h (List.not_mem_nil c)

theorem headerCmds_brand_free (cfg : Config) (cl p d i j : String) :
    ∀ c ∈ (headerCmds cfg cl p d i j).1, isBrandCmd c = false := by
  intro c hc
  by_cases hl : cfg.logoOk <;> by_cases hp : p = "" <;> by_cases hd : d = "" <;>
    simp [headerCmds, tableHeaderCmds, hl, hp, hd] at hc <;>
    rcases hc with rfl | rfl | rfl | rfl | rfl | rfl | rfl | rfl | rfl | rfl |
      rfl | rfl | rfl | rfl | rfl | rfl | rfl | rfl | rfl | rfl | rfl <;> rfl

theorem paidEvents_brand_free (isPaid : Bool) (y : ℚ) :
    ∀ c ∈ drawsOf (paidEvents isPaid y), isBrandCmd c = false := by
  intro c hc
  by_cases hip : isPaid = true <;>
    by_cases hsp : y - 100 > MIN_CONTENT_Y <;>
    simp [paidEvents, hip, hsp, drawsOf] at hc <;>
    (rcases hc with rfl | rfl <;> rfl)

theorem notesEvents_brand_free (notes : String) (y boxH : ℚ) :
    ∀ c ∈ drawsOf (notesEvents notes y boxH), isBrandCmd c = false := by
  intro c hc
  by_cases hg : notes ≠ "" ∧ y - boxH - 40 > MIN_CONTENT_Y + 60 <;>
    simp [notesEvents, hg, drawsOf] at hc <;>
    (rcases hc with rfl | rfl <;> rfl)

theorem wrapLoop_pagStream (cfg : Config) (inv : String) :
    ∀ (ws : List String) (line : String) (y : ℚ),
      PagStream inv (wrapLoop cfg inv ws line y).1 := by
  intro ws
  induction ws with
  | nil =>
    intro line y
    simp only [wrapLoop]
    split
    · exact PagStream.draw _ _ rfl PagStream.nil
    · exact PagStream.nil
  | cons word words ih =>
    intro line y
    simp only [wrapLoop]
    by_cases hguard : cfg.widthOfTextAtSize FontKind.regular
        (line ++ (if line ≠ "" then " " else "") ++ word) 8.5 > 380 ∧ line ≠ ""
    · rw [if_pos hguard]
      by_cases hbrk : y - 13 < MIN_CONTENT_Y
      · rw [if_pos hbrk]
        exact PagStream.draw _ _ rfl (PagStream.brk _ (ih word (pageHeight - 80)))
      · rw [if_neg hbrk]
        exact PagStream.draw _ _ rfl (ih word (y - 13))
    · rw [if_neg hguard]
      exact ih _ y

theorem detailEvents_pagStream (cfg : Config) (inv : String) (d : String)
    (y : ℚ) : PagStream inv (detailEvents cfg inv d y).1 := by
  simp only [detailEvents]
  by_cases hpre : y - 14 < MIN_CONTENT_Y
  · rw [if_pos hpre]
    exact PagStream.brk _ (wrapLoop_pagStream cfg inv _ "" (pageHeight - 80))
  · rw [if_neg hpre]
    exact wrapLoop_pagStream cfg inv _ "" y

theorem detailsEvents_pagStream (cfg : Config) (inv : String) :
    ∀ (ds : List String) (y : ℚ),
      PagStream inv (detailsEvents cfg inv ds y).1 := by
  intro ds
  induction ds with
  | nil => intro y; exact PagStream.nil
  | cons d ds ih =>
    intro y
    exact PagStream.append (detailEvents_pagStream cfg inv d y) (ih _)

theorem itemEvents_pagStream (cfg : Config) (sym inv : String) (isLast : Bool)
    (idx : ℕ) (it : LineItem) (y : ℚ) :
    PagStream inv (itemEvents cfg sym inv isLast idx it y).1 := by
  simp only [itemEvents]
  refine PagStream.append (PagStream.append (PagStream.append
    (PagStream.append ?_ ?_) ?_) ?_) ?_
  · by_cases hbrk : y - estimatedItemHeight it < MIN_CONTENT_Y
    · rw [if_pos hbrk]
      dsimp only
      exact PagStream.brk _
        (PagStream.ofDraws _ (tableHeaderCmds_brand_free _))
    · rw [if_neg hbrk]
      exact PagStream.nil
  · exact PagStream.draw _ _ rfl (PagStream.draw _ _ rfl PagStream.nil)
  · cases it.description with
    | none => exact PagStream.nil
    | some s =>
      dsimp only
      split
      · exact PagStream.draw _ _ rfl PagStream.nil
      · exact PagStream.nil
  · exact detailsEvents_pagStream cfg inv _ _
  · split
    · exact PagStream.nil
    · exact PagStream.draw _ _ rfl PagStream.nil

theorem itemsEvents_pagStream (cfg : Config) (sym inv : String) :
    ∀ (items : List LineItem) (idx : ℕ) (y : ℚ),
      PagStream inv (itemsEvents cfg sym inv items idx y).1 := by
  intro items
  induction items with
  | nil => intro idx y; exact PagStream.nil
  | cons it items ih =>
    intro idx y
    exact PagStream.append (itemEvents_pagStream cfg sym inv _ idx it y) (ih _ _)

theorem PagStream.ofNoNewPage {inv : String} {es : List Event}
    (hnp : Event.newPage ∉ es)
    (h : ∀ c ∈ drawsOf es, isBrandCmd c = false) : PagStream inv es := by
  induction es with
  | nil => exact PagStream.nil
  | cons e es ih =>
    cases e with
    | draw c =>
      refine PagStream.draw c _ (h c ?_) (ih ?_ ?_)
      · rw [drawsOf_cons_draw]
        exact List.mem_cons_self _ _
      · exact fun hmem => hnp (List.mem_cons_of_mem _ hmem)
      · intro x hx
        refine h x ?_
        rw [drawsOf_cons_draw]
        exact List.mem_cons_of_mem _ hx
    | newPage => exact absurd (List.mem_cons_self _ _) hnp

theorem totalsBreakdownEvents_all (cfg : Config) (sym : String)
    (t : InvoiceTotals) (y0 : ℚ) :
    ((totalsBreakdownEvents cfg sym t y0).1.all (fun e =>
      match e with
      | Event.draw c => cmdMark c == Mark.misc
      | Event.newPage => false)) = true := by
  obtain ⟨sub, tax, rate, disc, tot⟩ := t
  simp only [totalsBreakdownEvents]
  split
  · cases sub <;> cases disc <;> cases tax <;> dsimp only <;>
      (repeat' split) <;> rfl
  · rfl

theorem totalsBreakdownEvents_no_newPage (cfg : Config) (sym : String)
    (t : InvoiceTotals) (y0 : ℚ) :
    Event.newPage ∉ (totalsBreakdownEvents cfg sym t y0).1 := by
  intro hmem
  have := List.all_eq_true.mp (totalsBreakdownEvents_all cfg sym t y0) _ hmem
  simp at this

theorem totalsBreakdownEvents_marks (cfg : Config) (sym : String)
    (t : InvoiceTotals) (y0 : ℚ) :
    ∀ c ∈ drawsOf (totalsBreakdownEvents cfg sym t y0).1,
      cmdMark c = Mark.misc := by
  intro c hc
  rcases List.mem_filterMap.mp hc with ⟨e, he, hce⟩
  have := List.all_eq_true.mp (totalsBreakdownEvents_all cfg sym t y0) _ he
  cases e with
  | draw c2 =>
    simp only at hce
    cases hce
    simpa using this
  | newPage => simp at hce

theorem totalsEvents_pagStream (cfg : Config) (sym inv : String)
    (t : InvoiceTotals) (y : ℚ) :
    PagStream inv (totalsEvents cfg sym inv t y).1 := by
  simp only [totalsEvents]
  refine PagStream.append (PagStream.append (PagStream.append ?_ ?_) ?_) ?_
  · by_cases hbrk : y - (if hasBreakdown t then (120 : ℚ) else 60) <
        MIN_CONTENT_Y
    · rw [if_pos hbrk]
      have h0 : (pageBreak inv : List Event) = pageBreak inv ++ [] := by simp
      rw [h0]
      exact PagStream.brk _ PagStream.nil
    · rw [if_neg hbrk]
      exact PagStream.nil
  · exact PagStream.draw _ _ rfl PagStream.nil
  · refine PagStream.ofNoNewPage (totalsBreakdownEvents_no_newPage cfg sym t _)
      (fun c hc => ?_)
    have := totalsBreakdownEvents_marks cfg sym t _ c hc
    simp [isBrandCmd, this]
  · exact PagStream.draw _ _ rfl (PagStream.draw _ _ rfl PagStream.nil)

theorem footerCmds_brandCount (inv : String) :
    brandCount (footerCmds inv) = 1 := rfl

theorem paidEvents_no_newPage (isPaid : Bool) (y : ℚ) :
    Event.newPage ∉ paidEvents isPaid y := by
  by_cases hip : isPaid = true <;>
    by_cases hsp : y - 100 > MIN_CONTENT_Y <;>
    simp [paidEvents, hip, hsp]

theorem notesEvents_no_newPage (notes : String) (y boxH : ℚ) :
    Event.newPage ∉ notesEvents notes y boxH := by
  by_cases hg : notes ≠ "" ∧ y - boxH - 40 > MIN_CONTENT_Y + 60 <;>
    simp [notesEvents, hg]

/-- On a stream in the pagination language followed by the final addFooter,
the first page carries exactly one footer band and every later page carries
exactly two (one from addNewPage at its creation, one from the next
pagination or from the final addFooter). -/
theorem pagStream_footer_pattern (inv : String) {es : List Event}
    (h : PagStream inv es) :
    brandCount ((toPages (es ++ footerEvents inv)).headD []) = 1 ∧
    ∀ p ∈ (toPages (es ++ footerEvents inv)).tail, brandCount p = 2 := by
  induction h with
  | nil =>
    rw [List.nil_append]
    have h1 : toPages (footerEvents inv) = [footerCmds inv] := by
      rw [footerEvents, ← List.append_nil ((footerCmds inv).map Event.draw),
        toPages_append_draws]
      simp [toPages]
    rw [h1]
    constructor
    · simpa using footerCmds_brandCount inv
    · intro p hp
      simp at hp
  | draw c es hc hps ih =>
    rw [List.cons_append, toPages_draw]
    constructor
    · simp only [List.headD_cons]
      rw [brandCount, List.countP_cons, hc]
      simpa [brandCount] using ih.1
    · intro p hp
      simp only [List.tail_cons] at hp
      exact ih.2 p hp
  | brk es hps ih =>
    have hre : (pageBreak inv ++ es) ++ footerEvents inv =
        (footerCmds inv).map Event.draw ++ (Event.newPage ::
          ((footerCmds inv).map Event.draw ++ (es ++ footerEvents inv))) := by
      simp [pageBreak, footerEvents]
    rw [hre, toPages_append_draws, toPages_newPage]
    constructor
    · simpa using footerCmds_brandCount inv
    · intro p hp
      simp only [List.tail_cons, List.headD_cons] at hp
      rw [toPages_append_draws] at hp
      rcases List.mem_cons.mp hp with rfl | hp2
      · rw [brandCount, List.countP_append]
        have h2 := ih.1
        rw [brandCount] at h2
        have h3 := footerCmds_brandCount inv
        rw [brandCount] at h3
        omega
      · exact ih.2 p hp2

/-- Helper form of the footer-count pattern on the whole generator output:
head page count 1, later pages count 2. -/
theorem footer_band_counts_aux (cfg : Config) (fd : String → String)
    (now : String) (data : ModernInvoiceData) :
    brandCount ((generateModernInvoicePDF cfg fd now data).headD []) = 1 ∧
    ∀ p ∈ (generateModernInvoicePDF cfg fd now data).tail,
      brandCount p = 2 := by
  rw [generateModernInvoicePDF, renderDocument]
  simp only [documentEvents]
  exact pagStream_footer_pattern _
    (PagStream.append (PagStream.append (PagStream.append (PagStream.append
      (PagStream.ofDraws _ (headerCmds_brand_free cfg _ _ _ _ _))
      (itemsEvents_pagStream cfg _ _ data.lineItems 0 _))
      (totalsEvents_pagStream cfg _ _ _ _))
      (PagStream.ofNoNewPage (paidEvents_no_newPage _ _)
        (paidEvents_brand_free _ _)))
      (PagStream.ofNoNewPage (notesEvents_no_newPage _ _ _)
        (notesEvents_brand_free _ _ _)))

theorem getD_zero_eq_headD {α : Type} (l : List α) (d : α) :
    l.getD 0 d = l.headD d := by
  cases l <;> rfl

/-- Claim C2, amended: every page of the output carries at least one footer
band; the first page carries it exactly once and every subsequent page
exactly twice, because addNewPage stamps the footer on the fresh page and
the next pagination (or the final unconditional addFooter) stamps it
again. -/
theorem footer_band_counts (cfg : Config) (fd : String → String)
    (now : String) (data : ModernInvoiceData) :
    ∀ i, i < (generateModernInvoicePDF cfg fd now data).length →
      brandCount ((generateModernInvoicePDF cfg fd now data).getD i []) =
        if i = 0 then 1 else 2 := by
  intro i hi
  obtain ⟨h1, h2⟩ := footer_band_counts_aux cfg fd now data
  cases i with
  | zero =>
    rw [getD_zero_eq_headD]
    simpa using h1
  | succ j =>
    rw [if_neg (Nat.succ_ne_zero j)]
    cases hout : generateModernInvoicePDF cfg fd now data with
    | nil => rw [hout] at hi; simp at hi
    | cons p ps =>
      rw [hout] at hi
      have hred : (p :: ps).getD (j + 1) [] = ps.getD j [] := rfl
      rw [hred]
      have hj : j < ps.length := by
        simp only [List.length_cons] at hi
        omega
      have hmem : ps.getD j [] ∈ ps := by
        rw [List.getD_eq_getElem ps [] hj]
        exact List.getElem_mem hj
      have := h2 (ps.getD j [])
      rw [hout] at this
      exact this (by simpa using hmem)

/-- Claim C2 as stated is false: on this two-page document the second page
contains the footer band's draw commands twice. -/
theorem claim_C2_counterexample :
    (generateModernInvoicePDF cfgUnit fmtId dateStub dataManyItems).map brandCount = [1, 2] :=
  by with_unfolding_all decide

/-- Witness for footer_band_counts on a concrete two-page document. -/
theorem footer_band_counts_witness :
    1 < (generateModernInvoicePDF cfgUnit fmtId dateStub dataManyItems).length ∧
      brandCount ((generateModernInvoicePDF cfgUnit fmtId dateStub dataManyItems).getD 1 []) =
        if 1 = 0 then 1 else 2 :=
  ⟨by with_unfolding_all decide,
    footer_band_counts cfgUnit fmtId dateStub dataManyItems 1 (by with_unfolding_all decide)⟩

/-- Claim C4, amended: only the item-level pagination site re-renders the
column header.  The page opened by the item-level break block (addFooter,
addNewPage, table header redraw) carries the column header exactly once,
while the page opened by the plain break block used by the detail-line,
wrapped-line and totals sites carries none. -/
theorem column_header_only_on_item_breaks (inv : String) :
    colHeaderCount ((toPages (pageBreak inv ++
        (tableHeaderCmds (pageHeight - 80)).map Event.draw)).getD 1 []) = 1 ∧
      colHeaderCount ((toPages (pageBreak inv)).getD 1 []) = 0 :=
  ⟨rfl, rfl⟩

/-- Claim C4 as stated is false: pagination triggered by a wrapped
continuation line produces a second page that receives content (two detail
lines) but carries no DESCRIPTION / AMOUNT column header. -/
theorem claim_C4_counterexample :
    (generateModernInvoicePDF cfgWide fmtId dateStub dataWrapBreak).length = 2 ∧
      0 < detailLineCount
        ((generateModernInvoicePDF cfgWide fmtId dateStub dataWrapBreak).getD 1 []) ∧
      colHeaderCount
        ((generateModernInvoicePDF cfgWide fmtId dateStub dataWrapBreak).getD 1 []) = 0 :=
  ⟨by with_unfolding_all decide, by with_unfolding_all decide,
    by with_unfolding_all decide⟩

theorem pageBreak_no_subElem (inv : String) :
    ∀ c ∈ drawsOf (pageBreak inv), isSubElemCmd c = false := by
  intro c hc
  simp [pageBreak, footerEvents, drawsOf, footerCmds] at hc
  rcases hc with rfl | rfl | rfl | rfl | rfl | rfl | rfl | rfl <;> rfl

theorem estimatedItemHeight_ge (it : LineItem) :
    43 ≤ estimatedItemHeight it ∧
      (descPresent it = true → 59 ≤ estimatedItemHeight it) := by
  unfold estimatedItemHeight
  have hd : (0 : ℚ) ≤ (match it.details with
      | some ds => ((ds.length : ℚ)) * 14
      | none => 0) := by
    cases it.details
    · simp
    · positivity
  constructor
  · split <;> linarith
  · intro hdp
    rw [if_pos hdp]
    linarith

theorem wrapLoop_subElem_y (cfg : Config) (inv : String) :
    ∀ (ws : List String) (line : String) (y : ℚ), MIN_CONTENT_Y ≤ y →
      ∀ c ∈ drawsOf (wrapLoop cfg inv ws line y).1, isSubElemCmd c = true →
        MIN_CONTENT_Y ≤ cmdY c := by
  intro ws
  induction ws with
  | nil =>
    intro line y hy c hc _
    simp only [wrapLoop] at hc
    split at hc
    · simp [drawsOf, drawDetailLine] at hc
      subst hc
      exact hy
    · simp [drawsOf] at hc
  | cons word words ih =>
    intro line y hy c hc hsub
    simp only [wrapLoop] at hc
    by_cases hguard : cfg.widthOfTextAtSize FontKind.regular
        (line ++ (if line ≠ "" then " " else "") ++ word) 8.5 > 380 ∧ line ≠ ""
    · rw [if_pos hguard] at hc
      by_cases hbrk : y - 13 < MIN_CONTENT_Y
      · rw [if_pos hbrk] at hc
        simp only [drawsOf_cons_draw, drawsOf_append, List.mem_cons,
          List.mem_append] at hc
        rcases hc with rfl | hc2 | hc3
        · exact hy
        · exact absurd hsub (by rw [pageBreak_no_subElem inv c hc2]; simp)
        · refine ih word (pageHeight - 80) ?_ c hc3 hsub
          rw [MIN_CONTENT_Y, FOOTER_HEIGHT, pageHeight]; norm_num
      · rw [if_neg hbrk] at hc
        simp only [drawsOf_cons_draw, List.mem_cons] at hc
        rcases hc with rfl | hc2
        · exact hy
        · exact ih word (y - 13) (by push_neg at hbrk; exact hbrk) c hc2 hsub
    · rw [if_neg hguard] at hc
      exact ih _ y hy c hc hsub

theorem detailEvents_subElem_y (cfg : Config) (inv : String) (d : String)
    (y : ℚ) :
    ∀ c ∈ drawsOf (detailEvents cfg inv d y).1, isSubElemCmd c = true →
      MIN_CONTENT_Y ≤ cmdY c := by
  intro c hc hsub
  simp only [detailEvents] at hc
  by_cases hpre : y - 14 < MIN_CONTENT_Y
  · rw [if_pos hpre] at hc
    simp only [drawsOf_append, List.mem_append] at hc
    rcases hc with hc1 | hc2
    · exact absurd hsub (by rw [pageBreak_no_subElem inv c hc1]; simp)
    · refine wrapLoop_subElem_y cfg inv _ "" (pageHeight - 80) ?_ c hc2 hsub
      rw [MIN_CONTENT_Y, FOOTER_HEIGHT, pageHeight]; norm_num
  · rw [if_neg hpre] at hc
    refine wrapLoop_subElem_y cfg inv _ "" y ?_ c hc hsub
    push_neg at hpre
    linarith

theorem detailsEvents_subElem_y (cfg : Config) (inv : String) :
    ∀ (ds : List String) (y : ℚ),
      ∀ c ∈ drawsOf (detailsEvents cfg inv ds y).1, isSubElemCmd c = true →
        MIN_CONTENT_Y ≤ cmdY c := by
  intro ds
  induction ds with
  | nil => intro y c hc _; simp [detailsEvents, drawsOf] at hc
  | cons d ds ih =>
    intro y c hc hsub
    simp only [detailsEvents, drawsOf_append, List.mem_append] at hc
    rcases hc with hc1 | hc2
    · exact detailEvents_subElem_y cfg inv d y c hc1 hsub
    · exact ih _ c hc2 hsub

theorem itemEvents_subElem_y (cfg : Config) (sym inv : String)
    (isLast : Bool) (idx : ℕ) (it : LineItem) (y : ℚ) :
    ∀ c ∈ drawsOf (itemEvents cfg sym inv isLast idx it y).1,
      isSubElemCmd c = true → MIN_CONTENT_Y ≤ cmdY c := by
  intro c hc hsub
  simp only [itemEvents] at hc
  by_cases hbrk : y - estimatedItemHeight it < MIN_CONTENT_Y
  · rw [if_pos hbrk] at hc
    simp only [drawsOf_append, drawsOf_cons_draw, drawsOf_map_draw,
      drawsOf_nil, List.mem_append, List.mem_cons, List.not_mem_nil,
      or_false, false_or] at hc
    rcases hc with ((((hc | hc) | (rfl | rfl)) | hc) | hc) | hc
    · exact absurd hsub (by rw [pageBreak_no_subElem inv c hc]; simp)
    · refine absurd hsub ?_
      simp only [tableHeaderCmds, List.mem_cons, List.not_mem_nil, or_false]
        at hc
      rcases hc with rfl | rfl | rfl <;> simp [isSubElemCmd, cmdMark]
    · norm_num [cmdY, pageHeight, MIN_CONTENT_Y, FOOTER_HEIGHT]
    · norm_num [cmdY, pageHeight, MIN_CONTENT_Y, FOOTER_HEIGHT]
    · cases hdescE : it.description with
      | none => simp only [hdescE] at hc; simp [drawsOf] at hc
      | some s =>
        simp only [hdescE] at hc
        by_cases hs : s ≠ ""
        · rw [if_pos hs] at hc
          simp [drawsOf] at hc
          subst hc
          norm_num [cmdY, pageHeight, MIN_CONTENT_Y, FOOTER_HEIGHT]
        · rw [if_neg hs] at hc
          simp [drawsOf] at hc
    · exact detailsEvents_subElem_y cfg inv _ _ c hc hsub
    · refine absurd hsub ?_
      rcases it.description with _ | s
      · split at hc
        · simp [drawsOf] at hc
        · simp [drawsOf] at hc
          rw [hc]; simp [isSubElemCmd, cmdMark]
      · split at hc
        · simp [drawsOf] at hc
        · simp [drawsOf] at hc
          rw [hc]; simp [isSubElemCmd, cmdMark]
  · rw [if_neg hbrk] at hc
    push_neg at hbrk
    have hest := estimatedItemHeight_ge it
    simp only [drawsOf_append, drawsOf_cons_draw, drawsOf_map_draw,
      drawsOf_nil, List.mem_append, List.mem_cons, List.not_mem_nil,
      or_false, false_or] at hc
    rcases hc with (((rfl | rfl) | hc) | hc) | hc
    · simp only [cmdY]; linarith [hest.1]
    · simp only [cmdY]; linarith [hest.1]
    · cases hdescE : it.description with
      | none => simp only [hdescE] at hc; simp [drawsOf] at hc
      | some s =>
        simp only [hdescE] at hc
        by_cases hs : s ≠ ""
        · rw [if_pos hs] at hc
          simp [drawsOf] at hc
          have hdp : descPresent it = true := by
            simp [descPresent, hdescE, bne_iff_ne, hs]
          subst hc
          simp only [cmdY]
          linarith [hest.2 hdp]
        · rw [if_neg hs] at hc
          simp [drawsOf] at hc
    · exact detailsEvents_subElem_y cfg inv _ _ c hc hsub
    · refine absurd hsub ?_
      rcases it.description with _ | s
      · split at hc
        · simp [drawsOf] at hc
        · simp [drawsOf] at hc
          rw [hc]; simp [isSubElemCmd, cmdMark]
      · split at hc
        · simp [drawsOf] at hc
        · simp [drawsOf] at hc
          rw [hc]; simp [isSubElemCmd, cmdMark]

theorem itemsEvents_subElem_y (cfg : Config) (sym inv : String) :
    ∀ (items : List LineItem) (idx : ℕ) (y : ℚ),
      ∀ c ∈ drawsOf (itemsEvents cfg sym inv items idx y).1,
        isSubElemCmd c = true → MIN_CONTENT_Y ≤ cmdY c := by
  intro items
  induction items with
  | nil => intro idx y c hc _; simp [itemsEvents, drawsOf] at hc
  | cons it items ih =>
    intro idx y c hc hsub
    simp only [itemsEvents, drawsOf_append, List.mem_append] at hc
    rcases hc with hc1 | hc2
    · exact itemEvents_subElem_y cfg sym inv _ idx it y c hc1 hsub
    · exact ih _ _ c hc2 hsub

theorem headerCmds_no_subElem (cfg : Config) (cl p d i j : String) :
    ∀ c ∈ (headerCmds cfg cl p d i j).1, isSubElemCmd c = false := by
  intro c hc
  by_cases hl : cfg.logoOk <;> by_cases hp : p = "" <;> by_cases hd : d = "" <;>
    simp [headerCmds, tableHeaderCmds, hl, hp, hd] at hc <;>
    rcases hc with rfl | rfl | rfl | rfl | rfl | rfl | rfl | rfl | rfl | rfl |
      rfl | rfl | rfl | rfl | rfl | rfl | rfl | rfl | rfl | rfl | rfl <;> rfl

theorem footerEvents_no_subElem (inv : String) :
    ∀ c ∈ drawsOf (footerEvents inv), isSubElemCmd c = false := by
  intro c hc
  simp [footerEvents, drawsOf, footerCmds] at hc
  rcases hc with rfl | rfl | rfl | rfl <;> rfl

theorem paidEvents_no_subElem (isPaid : Bool) (y : ℚ) :
    ∀ c ∈ drawsOf (paidEvents isPaid y), isSubElemCmd c = false := by
  intro c hc
  by_cases hip : isPaid = true <;>
    by_cases hsp : y - 100 > MIN_CONTENT_Y <;>
    simp [paidEvents, hip, hsp, drawsOf] at hc <;>
    (rcases hc with rfl | rfl <;> rfl)

theorem notesEvents_no_subElem (notes : String) (y boxH : ℚ) :
    ∀ c ∈ drawsOf (notesEvents notes y boxH), isSubElemCmd c = false := by
  intro c hc
  by_cases hg : notes ≠ "" ∧ y - boxH - 40 > MIN_CONTENT_Y + 60 <;>
    simp [notesEvents, hg, drawsOf] at hc <;>
    (rcases hc with rfl | rfl <;> rfl)

theorem totalsEvents_no_subElem (cfg : Config) (sym inv : String)
    (t : InvoiceTotals) (y : ℚ) :
    ∀ c ∈ drawsOf (totalsEvents cfg sym inv t y).1,
      isSubElemCmd c = false := by
  intro c hc
  simp only [totalsEvents, drawsOf_append, drawsOf_cons_draw, drawsOf_nil,
    List.mem_append, List.mem_cons, List.not_mem_nil, or_false, false_or]
    at hc
  rcases hc with ((hc | rfl) | hc) | (rfl | rfl)
  · by_cases hbrk : y - (if hasBreakdown t then (120 : ℚ) else 60) <
        MIN_CONTENT_Y
    · rw [if_pos hbrk] at hc
      exact pageBreak_no_subElem inv c hc
    · rw [if_neg hbrk] at hc
      simp [drawsOf] at hc
  · rfl
  · have := totalsBreakdownEvents_marks cfg sym t _ c hc
    simp [isSubElemCmd, this]
  · rfl
  · rfl

/-- Claim C5: no line-item sub-element (item title, amount, description or
detail line) is ever drawn at a vertical position below MIN_CONTENT_Y, on
any page of any document. -/
theorem sub_elements_above_min (cfg : Config) (fd : String → String)
    (now : String) (data : ModernInvoiceData) (i j : ℕ)
    (hsub : isSubElemCmd
      (((generateModernInvoicePDF cfg fd now data).getD i []).getD j blankCmd) =
        true) :
    MIN_CONTENT_Y ≤ cmdY
      (((generateModernInvoicePDF cfg fd now data).getD i []).getD j blankCmd) := by
  have hcmem : ((generateModernInvoicePDF cfg fd now data).getD i []).getD j blankCmd
      ∈ (generateModernInvoicePDF cfg fd now data).getD i [] := by
    by_cases hj : j < ((generateModernInvoicePDF cfg fd now data).getD i []).length
    · rw [List.getD_eq_getElem _ blankCmd hj]
      exact List.getElem_mem hj
    · exfalso
      push_neg at hj
      rw [List.getD_eq_default _ blankCmd hj] at hsub
      simp [blankCmd, isSubElemCmd, cmdMark] at hsub
  have hpmem : (generateModernInvoicePDF cfg fd now data).getD i [] ∈
      generateModernInvoicePDF cfg fd now data := by
    by_cases hi : i < (generateModernInvoicePDF cfg fd now data).length
    · rw [List.getD_eq_getElem _ [] hi]
      exact List.getElem_mem hi
    · exfalso
      push_neg at hi
      rw [List.getD_eq_default _ [] hi] at hcmem
      exact absurd hcmem (List.not_mem_nil _)
  have hdraw : ((generateModernInvoicePDF cfg fd now data).getD i []).getD j blankCmd
      ∈ drawsOf (documentEvents cfg data (resolveInvoiceDate fd now data)) := by
    rw [generateModernInvoicePDF, renderDocument] at hpmem
    exact mem_drawsOf_of_mem_toPages hpmem hcmem
  simp only [documentEvents, drawsOf_append, drawsOf_map_draw,
    List.mem_append] at hdraw
  rcases hdraw with ((((hd | hd) | hd) | hd) | hd) | hd
  · exact absurd hsub (by rw [headerCmds_no_subElem cfg _ _ _ _ _ _ hd]; simp)
  · exact itemsEvents_subElem_y cfg _ _ data.lineItems 0 _ _ hd hsub
  · exact absurd hsub (by rw [totalsEvents_no_subElem cfg _ _ _ _ _ hd]; simp)
  · exact absurd hsub (by rw [paidEvents_no_subElem _ _ _ hd]; simp)
  · exact absurd hsub (by rw [notesEvents_no_subElem _ _ _ _ hd]; simp)
  · exact absurd hsub (by rw [footerEvents_no_subElem _ _ hd]; simp)

/-- Witness: the title of the only item of a one-item document is a
sub-element and sits above MIN_CONTENT_Y. -/
theorem sub_elements_above_min_witness :
    isSubElemCmd (((generateModernInvoicePDF cfgUnit fmtId dateStub dataOneItem).getD 0
        []).getD 19 blankCmd) = true ∧
      MIN_CONTENT_Y ≤ cmdY (((generateModernInvoicePDF cfgUnit fmtId dateStub
        dataOneItem).getD 0 []).getD 19 blankCmd) :=
  ⟨by with_unfolding_all decide,
    sub_elements_above_min cfgUnit fmtId dateStub dataOneItem 0 19
      (by with_unfolding_all decide)⟩

theorem pageBreak_marks (inv : String) :
    ∀ c ∈ drawsOf (pageBreak inv), cmdMark c ∈ itemMarks := by
  intro c hc
  simp [pageBreak, footerEvents, drawsOf, footerCmds] at hc
  rcases hc with rfl | rfl | rfl | rfl | rfl | rfl | rfl | rfl <;>
    simp [cmdMark, itemMarks]

theorem wrapLoop_marks (cfg : Config) (inv : String) :
    ∀ (ws : List String) (line : String) (y : ℚ),
      ∀ c ∈ drawsOf (wrapLoop cfg inv ws line y).1, cmdMark c ∈ itemMarks := by
  intro ws
  induction ws with
  | nil =>
    intro line y c hc
    simp only [wrapLoop] at hc
    split at hc
    · simp [drawsOf, drawDetailLine] at hc
      subst hc
      simp [cmdMark, itemMarks]
    · simp [drawsOf] at hc
  | cons word words ih =>
    intro line y c hc
    simp only [wrapLoop] at hc
    by_cases hguard : cfg.widthOfTextAtSize FontKind.regular
        (line ++ (if line ≠ "" then " " else "") ++ word) 8.5 > 380 ∧ line ≠ ""
    · rw [if_pos hguard] at hc
      by_cases hbrk : y - 13 < MIN_CONTENT_Y
      · rw [if_pos hbrk] at hc
        simp only [drawsOf_cons_draw, drawsOf_append, List.mem_cons,
          List.mem_append] at hc
        rcases hc with rfl | hc2 | hc3
        · simp [drawDetailLine, cmdMark, itemMarks]
        · exact pageBreak_marks inv c hc2
        · exact ih word (pageHeight - 80) c hc3
      · rw [if_neg hbrk] at hc
        simp only [drawsOf_cons_draw, List.mem_cons] at hc
        rcases hc with rfl | hc2
        · simp [drawDetailLine, cmdMark, itemMarks]
        · exact ih word (y - 13) c hc2
    · rw [if_neg hguard] at hc
      exact ih _ y c hc

theorem detailEvents_marks (cfg : Config) (inv : String) (d : String)
    (y : ℚ) :
    ∀ c ∈ drawsOf (detailEvents cfg inv d y).1, cmdMark c ∈ itemMarks := by
  intro c hc
  simp only [detailEvents] at hc
  by_cases hpre : y - 14 < MIN_CONTENT_Y
  · rw [if_pos hpre] at hc
    simp only [drawsOf_append, List.mem_append] at hc
    rcases hc with hc1 | hc2
    · exact pageBreak_marks inv c hc1
    · exact wrapLoop_marks cfg inv _ "" (pageHeight - 80) c hc2
  · rw [if_neg hpre] at hc
    exact wrapLoop_marks cfg inv _ "" y c hc

theorem detailsEvents_marks (cfg : Config) (inv : String) :
    ∀ (ds : List String) (y : ℚ),
      ∀ c ∈ drawsOf (detailsEvents cfg inv ds y).1, cmdMark c ∈ itemMarks := by
  intro ds
  induction ds with
  | nil => intro y c hc; simp [detailsEvents, drawsOf] at hc
  | cons d ds ih =>
    intro y c hc
    simp only [detailsEvents, drawsOf_append, List.mem_append] at hc
    rcases hc with hc1 | hc2
    · exact detailEvents_marks cfg inv d y c hc1
    · exact ih _ c hc2

theorem itemEvents_marks (cfg : Config) (sym inv : String) (isLast : Bool)
    (idx : ℕ) (it : LineItem) (y : ℚ) :
    ∀ c ∈ drawsOf (itemEvents cfg sym inv isLast idx it y).1,
      cmdMark c ∈ itemMarks := by
  intro c hc
  simp only [itemEvents, drawsOf_append, drawsOf_cons_draw, drawsOf_map_draw,
    drawsOf_nil, List.mem_append, List.mem_cons, List.not_mem_nil,
    or_false, false_or] at hc
  rcases hc with (((hc | (rfl | rfl)) | hc) | hc) | hc
  · by_cases hbrk : y - estimatedItemHeight it < MIN_CONTENT_Y
    · rw [if_pos hbrk] at hc
      simp only [drawsOf_append, drawsOf_map_draw, List.mem_append] at hc
      rcases hc with hc1 | hc2
      · exact pageBreak_marks inv c hc1
      · simp only [tableHeaderCmds, List.mem_cons, List.not_mem_nil,
          or_false] at hc2
        rcases hc2 with rfl | rfl | rfl <;> simp [cmdMark, itemMarks]
    · rw [if_neg hbrk] at hc
      simp [drawsOf] at hc
  · simp [cmdMark, itemMarks]
  · simp [cmdMark, itemMarks]
  · rcases hdescE : it.description with _ | s <;> simp only [hdescE] at hc
    · simp [drawsOf] at hc
    · by_cases hs : s ≠ ""
      · rw [if_pos hs] at hc
        simp [drawsOf] at hc
        subst hc
        simp [cmdMark, itemMarks]
      · rw [if_neg hs] at hc
        simp [drawsOf] at hc
  · exact detailsEvents_marks cfg inv _ _ c hc
  · split at hc
    · simp [drawsOf] at hc
    · simp [drawsOf] at hc
      subst hc
      simp [cmdMark, itemMarks]

theorem itemsEvents_marks (cfg : Config) (sym inv : String) :
    ∀ (items : List LineItem) (idx : ℕ) (y : ℚ),
      ∀ c ∈ drawsOf (itemsEvents cfg sym inv items idx y).1,
        cmdMark c ∈ itemMarks := by
  intro items
  induction items with
  | nil => intro idx y c hc; simp [itemsEvents, drawsOf] at hc
  | cons it items ih =>
    intro idx y c hc
    simp only [itemsEvents, drawsOf_append, List.mem_append] at hc
    rcases hc with hc1 | hc2
    · exact itemEvents_marks cfg sym inv _ idx it y c hc1
    · exact ih _ _ c hc2

theorem headerCmds_marks (cfg : Config) (cl p d i j : String) :
    ∀ c ∈ (headerCmds cfg cl p d i j).1,
      cmdMark c = Mark.misc ∨ cmdMark c = Mark.colHeader := by
  intro c hc
  by_cases hl : cfg.logoOk <;> by_cases hp : p = "" <;> by_cases hd : d = "" <;>
    simp [headerCmds, tableHeaderCmds, hl, hp, hd] at hc <;>
    rcases hc with rfl | rfl | rfl | rfl | rfl | rfl | rfl | rfl | rfl | rfl |
      rfl | rfl | rfl | rfl | rfl | rfl | rfl | rfl | rfl | rfl | rfl <;>
    simp [cmdMark]

theorem totalValueTexts_append (a b : List Cmd) :
    totalValueTexts (a ++ b) = totalValueTexts a ++ totalValueTexts b :=
  List.filterMap_append _ _ _

theorem totalValueTexts_eq_nil {cs : List Cmd}
    (h : ∀ c ∈ cs, cmdMark c ≠ Mark.totalValue) : totalValueTexts cs = [] := by
  rw [totalValueTexts, List.filterMap_eq_nil]
  intro c hc
  simp [h c hc]

theorem ne_totalValue_of_itemMarks {c : Cmd} (hm : cmdMark c ∈ itemMarks) :
    cmdMark c ≠ Mark.totalValue := by
  intro he
  rw [he] at hm
  simp [itemMarks] at hm

theorem ne_paid_of_itemMarks {c : Cmd} (hm : cmdMark c ∈ itemMarks) :
    cmdMark c ≠ Mark.paidText := by
  intro he
  rw [he] at hm
  simp [itemMarks] at hm

theorem totalsEvents_totalValueTexts (cfg : Config) (sym inv : String)
    (t : InvoiceTotals) (y : ℚ) :
    totalValueTexts (drawsOf (totalsEvents cfg sym inv t y).1) =
      [sym ++ toFixed2 t.total] := by
  simp only [totalsEvents]
  rw [drawsOf_append, drawsOf_append, drawsOf_append, totalValueTexts_append,
    totalValueTexts_append, totalValueTexts_append]
  have h1 : totalValueTexts (drawsOf (if y -
      (if hasBreakdown t then (120 : ℚ) else 60) < MIN_CONTENT_Y then
        (pageBreak inv, pageHeight - 80) else ([], y)).1) = [] := by
    refine totalValueTexts_eq_nil (fun c hc => ?_)
    by_cases hbrk : y - (if hasBreakdown t then (120 : ℚ) else 60) <
        MIN_CONTENT_Y
    · rw [if_pos hbrk] at hc
      exact ne_totalValue_of_itemMarks (pageBreak_marks inv c hc)
    · rw [if_neg hbrk] at hc
      simp [drawsOf] at hc
  have h2 : totalValueTexts (drawsOf
      (totalsBreakdownEvents cfg sym t
        (if y - (if hasBreakdown t then (120 : ℚ) else 60) < MIN_CONTENT_Y then
          ((pageBreak inv : List Event), pageHeight - 80)
        else (([] : List Event), y)).2).1) = [] := by
    refine totalValueTexts_eq_nil (fun c hc => ?_)
    rw [totalsBreakdownEvents_marks cfg sym t _ c hc]
    simp
  rw [h1, h2]
  simp [totalValueTexts, drawsOf, cmdMark, cmdContent]

theorem headerCmds_totalValueTexts (cfg : Config) (cl p d i j : String) :
    totalValueTexts (headerCmds cfg cl p d i j).1 = [] := by
  refine totalValueTexts_eq_nil (fun c hc => ?_)
  rcases headerCmds_marks cfg cl p d i j c hc with h | h <;> rw [h] <;> simp

theorem itemsEvents_totalValueTexts (cfg : Config) (sym inv : String)
    (items : List LineItem) (idx : ℕ) (y : ℚ) :
    totalValueTexts (drawsOf (itemsEvents cfg sym inv items idx y).1) = [] :=
  totalValueTexts_eq_nil (fun c hc =>
    ne_totalValue_of_itemMarks (itemsEvents_marks cfg sym inv items idx y c hc))

theorem paidEvents_totalValueTexts (b : Bool) (y : ℚ) :
    totalValueTexts (drawsOf (paidEvents b y)) = [] := by
  refine totalValueTexts_eq_nil (fun c hc => ?_)
  intro he
  by_cases hip : b = true <;> by_cases hsp : y - 100 > MIN_CONTENT_Y <;>
    simp [paidEvents, hip, hsp, drawsOf] at hc <;>
    (rcases hc with rfl | rfl <;> simp [cmdMark] at he)

theorem notesEvents_totalValueTexts (notes : String) (y boxH : ℚ) :
    totalValueTexts (drawsOf (notesEvents notes y boxH)) = [] := by
  refine totalValueTexts_eq_nil (fun c hc => ?_)
  intro he
  by_cases hg : notes ≠ "" ∧ y - boxH - 40 > MIN_CONTENT_Y + 60 <;>
    simp [notesEvents, hg, drawsOf] at hc <;>
    (rcases hc with rfl | rfl <;> simp [cmdMark] at he)

theorem footerEvents_totalValueTexts (inv : String) :
    totalValueTexts (drawsOf (footerEvents inv)) = [] := by
  rw [footerEvents, drawsOf_map_draw]
  refine totalValueTexts_eq_nil (fun c hc => ?_)
  simp only [footerCmds, List.mem_cons, List.not_mem_nil, or_false] at hc
  rcases hc with rfl | rfl | rfl | rfl <;> simp [cmdMark]

/-- Claim C6, amended: when the input supplies a totals object with a total
but no subtotal, discount or tax, the single rendered TOTAL text is the
currency symbol followed by the SUPPLIED total formatted to two decimals;
it is not recomputed from the line items (only a missing totals object
falls back to the accumulated line-item sum). -/
theorem rendered_total_is_supplied_total (cfg : Config)
    (fd : String → String) (now : String)
    (data : ModernInvoiceData) (t : InvoiceTotals)
    (ht : data.totals = some t) (hsub : t.subtotal = none)
    (hdis : t.discount = none) (htax : t.tax = none) :
    totalValueTexts (generateModernInvoicePDF cfg fd now data).flatten =
      [getCurrencySymbol (resolveCurrency data) ++ toFixed2 t.total] := by
  rw [generateModernInvoicePDF, renderDocument, flatten_toPages]
  simp only [documentEvents]
  rw [drawsOf_append, drawsOf_append, drawsOf_append, drawsOf_append,
    drawsOf_append, totalValueTexts_append, totalValueTexts_append,
    totalValueTexts_append, totalValueTexts_append, totalValueTexts_append,
    drawsOf_map_draw, headerCmds_totalValueTexts, itemsEvents_totalValueTexts,
    totalsEvents_totalValueTexts, paidEvents_totalValueTexts,
    notesEvents_totalValueTexts, footerEvents_totalValueTexts]
  have hres : resolveTotals data = t := by
    rw [resolveTotals, ht]
    rfl
  rw [hres]
  simp

/-- Claim C6 as stated is false: with lineItems summing to 100 but a
supplied Totals.total of 999, the rendered TOTAL reads 999.00, not the
rounded line-item sum 100.00. -/
theorem claim_C6_counterexample :
    totalValueTexts (generateModernInvoicePDF cfgUnit fmtId dateStub
        dataTotalsMismatch).flatten = ["£999.00"] ∧
      getCurrencySymbol (resolveCurrency dataTotalsMismatch) ++
        toFixed2 (calculatedSubtotal dataTotalsMismatch.lineItems) =
        "£100.00" ∧
      ("£999.00" : String) ≠ "£100.00" :=
  ⟨by with_unfolding_all decide, by with_unfolding_all decide,
    by with_unfolding_all decide⟩

/-- Witness for rendered_total_is_supplied_total at a concrete input. -/
theorem rendered_total_is_supplied_total_witness :
    dataTotalsPlain.totals = some { total := 250 } ∧
      totalValueTexts (generateModernInvoicePDF cfgUnit fmtId dateStub
        dataTotalsPlain).flatten =
        [getCurrencySymbol (resolveCurrency dataTotalsPlain) ++
          toFixed2 (250 : ℚ)] :=
  ⟨rfl, rendered_total_is_supplied_total cfgUnit fmtId dateStub dataTotalsPlain
    { total := 250 } rfl rfl rfl rfl⟩

theorem paidTextCount_append (a b : List Cmd) :
    paidTextCount (a ++ b) = paidTextCount a + paidTextCount b :=
  List.countP_append _ _ _

theorem paidTextCount_eq_zero {cs : List Cmd}
    (h : ∀ c ∈ cs, cmdMark c ≠ Mark.paidText) : paidTextCount cs = 0 := by
  rw [paidTextCount, List.countP_eq_zero]
  intro c hc
  simp [h c hc]

theorem headerCmds_paidTextCount (cfg : Config) (cl p d i j : String) :
    paidTextCount (headerCmds cfg cl p d i j).1 = 0 := by
  refine paidTextCount_eq_zero (fun c hc => ?_)
  rcases headerCmds_marks cfg cl p d i j c hc with h | h <;> rw [h] <;> simp

theorem itemsEvents_paidTextCount (cfg : Config) (sym inv : String)
    (items : List LineItem) (idx : ℕ) (y : ℚ) :
    paidTextCount (drawsOf (itemsEvents cfg sym inv items idx y).1) = 0 :=
  paidTextCount_eq_zero (fun c hc =>
    ne_paid_of_itemMarks (itemsEvents_marks cfg sym inv items idx y c hc))

theorem totalsEvents_paidTextCount (cfg : Config) (sym inv : String)
    (t : InvoiceTotals) (y : ℚ) :
    paidTextCount (drawsOf (totalsEvents cfg sym inv t y).1) = 0 := by
  refine paidTextCount_eq_zero (fun c hc => ?_)
  simp only [totalsEvents, drawsOf_append, drawsOf_cons_draw, drawsOf_nil,
    List.mem_append, List.mem_cons, List.not_mem_nil, or_false, false_or]
    at hc
  rcases hc with ((hc | rfl) | hc) | (rfl | rfl)
  · by_cases hbrk : y - (if hasBreakdown t then (120 : ℚ) else 60) <
        MIN_CONTENT_Y
    · rw [if_pos hbrk] at hc
      exact ne_paid_of_itemMarks (pageBreak_marks inv c hc)
    · rw [if_neg hbrk] at hc
      simp [drawsOf] at hc
  · simp [cmdMark]
  · rw [totalsBreakdownEvents_marks cfg sym t _ c hc]
    simp
  · simp [cmdMark]
  · simp [cmdMark]

theorem notesEvents_paidTextCount (notes : String) (y boxH : ℚ) :
    paidTextCount (drawsOf (notesEvents notes y boxH)) = 0 := by
  refine paidTextCount_eq_zero (fun c hc => ?_)
  intro he
  by_cases hg : notes ≠ "" ∧ y - boxH - 40 > MIN_CONTENT_Y + 60 <;>
    simp [notesEvents, hg, drawsOf] at hc <;>
    (rcases hc with rfl | rfl <;> simp [cmdMark] at he)

theorem footerEvents_paidTextCount (inv : String) :
    paidTextCount (drawsOf (footerEvents inv)) = 0 := by
  rw [footerEvents, drawsOf_map_draw]
  refine paidTextCount_eq_zero (fun c hc => ?_)
  simp only [footerCmds, List.mem_cons, List.not_mem_nil, or_false] at hc
  rcases hc with rfl | rfl | rfl | rfl <;> simp [cmdMark]

theorem paidEvents_paidTextCount (b : Bool) (y : ℚ) :
    paidTextCount (drawsOf (paidEvents b y)) =
      if b = true ∧ y - 100 > MIN_CONTENT_Y then 1 else 0 := by
  by_cases hip : b = true <;> by_cases hsp : y - 100 > MIN_CONTENT_Y <;>
    simp [paidEvents, hip, hsp, drawsOf, paidTextCount, List.countP_cons,
      cmdMark]

theorem gen_paidTextCount (cfg : Config) (fd : String → String)
    (now : String) (data : ModernInvoiceData) :
    paidTextCount (generateModernInvoicePDF cfg fd now data).flatten =
      if data.isPaid.getD false = true ∧
          (totalsEvents cfg (getCurrencySymbol (resolveCurrency data))
            (resolveInvoiceNumber data) (resolveTotals data)
            ((itemsEvents cfg (getCurrencySymbol (resolveCurrency data))
              (resolveInvoiceNumber data) data.lineItems 0
              (headerCmds cfg
                (orElseStr (data.metadata.bind InvoiceMetadata.client)
                  (orElseStr (data.transaction.map Transaction.payee)
                    "Client"))
                (orElseStr (data.metadata.bind InvoiceMetadata.project) "")
                (orElseStr (data.metadata.bind InvoiceMetadata.duration) "")
                (resolveInvoiceNumber data)
                (resolveInvoiceDate fd now data)).2).2 - 35)).2 - 100 >
            MIN_CONTENT_Y then 1 else 0 := by
  rw [generateModernInvoicePDF, renderDocument, flatten_toPages]
  simp only [documentEvents]
  rw [drawsOf_append, drawsOf_append, drawsOf_append, drawsOf_append,
    drawsOf_append, paidTextCount_append, paidTextCount_append,
    paidTextCount_append, paidTextCount_append, paidTextCount_append,
    drawsOf_map_draw, headerCmds_paidTextCount, itemsEvents_paidTextCount,
    totalsEvents_paidTextCount, paidEvents_paidTextCount,
    notesEvents_paidTextCount, footerEvents_paidTextCount]
  omega

/-- Claim C7, amended: no PAID overlay is ever drawn when isPaid is false or
absent; at most one overlay is ever drawn; and when isPaid is true the
overlay is drawn exactly when the stamp position (cursor minus 100) is still
above MIN_CONTENT_Y - otherwise the stamp is silently skipped even though
the invoice is paid. -/
theorem paid_stamp_policy :
    (∀ (cfg : Config) (fd : String → String) (now : String)
        (data : ModernInvoiceData), data.isPaid.getD false = false →
        paidTextCount (generateModernInvoicePDF cfg fd now data).flatten =
          0) ∧
      (∀ (cfg : Config) (fd : String → String) (now : String)
        (data : ModernInvoiceData),
        paidTextCount (generateModernInvoicePDF cfg fd now data).flatten ≤
          1) ∧
      (∀ (b : Bool) (y : ℚ), paidTextCount (drawsOf (paidEvents b y)) =
        if b = true ∧ y - 100 > MIN_CONTENT_Y then 1 else 0) := by
  refine ⟨fun cfg fd now data h => ?_, fun cfg fd now data => ?_,
    paidEvents_paidTextCount⟩
  · rw [gen_paidTextCount]
    rw [h]
    simp
  · rw [gen_paidTextCount]
    split <;> omega

/-- Claim C7 as stated is false: this paid document skips the PAID overlay
because the stamp position lands below MIN_CONTENT_Y. -/
theorem claim_C7_counterexample :
    dataPaidNoRoom.isPaid = some true ∧
      paidTextCount (generateModernInvoicePDF cfgUnit fmtId dateStub
        dataPaidNoRoom).flatten = 0 ∧
      paidTextCount (generateModernInvoicePDF cfgUnit fmtId dateStub
        dataPaidRoom).flatten = 1 :=
  ⟨rfl, by with_unfolding_all decide, by with_unfolding_all decide⟩

/-- Witness for paid_stamp_policy on an unpaid document. -/
theorem paid_stamp_policy_witness :
    dataOneItem.isPaid.getD false = false ∧
      paidTextCount (generateModernInvoicePDF cfgUnit fmtId dateStub dataOneItem).flatten =
        0 :=
  ⟨rfl, paid_stamp_policy.1 cfgUnit fmtId dateStub dataOneItem rfl⟩

/-- Claim C8, amended: the route validation fails exactly when the
line-item list is absent or empty.  The finiteness of the total is never
checked anywhere on the path, so rendering proceeds for any total. -/
theorem validation_rejects_only_missing_items (req : GenerateRequest) :
    validateGenerateRequest req = false ↔
      req.lineItems = none ∨ req.lineItems = some [] := by
  rcases hli : req.lineItems with _ | l
  · simp [validateGenerateRequest, hli]
  · cases l <;> simp [validateGenerateRequest, hli]

/-- Claim C8 as stated is false: a request whose total is NaN (non-finite)
passes validation, so rendering is not blocked. -/
theorem claim_C8_counterexample :
    validateGenerateRequest reqNanTotal = true ∧
      reqNanTotal.totals.map (fun t => t.total.isFinite) = some false :=
  ⟨rfl, rfl⟩

theorem resolveInvoiceDate_supplied (fd : String → String) (n : String)
    (data : ModernInvoiceData) (d : String) (hd : data.invoiceDate = some d)
    (hne : d ≠ "") : resolveInvoiceDate fd n data = d := by
  simp [resolveInvoiceDate, orElseStr, hd, hne]

/-- Claim C9: with a supplied (truthy) invoiceDate, the generated command
stream does not depend on the ambient clock, so two invocations at
different times produce identical documents.  The clock is consulted only
by the invoice-date fallback. -/
theorem render_deterministic_given_invoiceDate (cfg : Config)
    (fd : String → String) (n1 n2 : String) (data : ModernInvoiceData)
    (d : String) (hd : data.invoiceDate = some d) (hne : d ≠ "") :
    generateModernInvoicePDF cfg fd n1 data =
      generateModernInvoicePDF cfg fd n2 data := by
  rw [generateModernInvoicePDF, generateModernInvoicePDF,
    resolveInvoiceDate_supplied fd n1 data d hd hne,
    resolveInvoiceDate_supplied fd n2 data d hd hne]

/-- Witness: a document with a supplied invoice date renders identically
under two different clock values. -/
theorem render_deterministic_given_invoiceDate_witness :
    ({ lineItems := [{ title := "Work", amount := 10 }]
       invoiceDate := some "2 February 2026" } :
        ModernInvoiceData).invoiceDate = some "2 February 2026" ∧
      ("2 February 2026" : String) ≠ "" ∧
      generateModernInvoicePDF cfgUnit fmtId "1 March 2026"
          { lineItems := [{ title := "Work", amount := 10 }]
            invoiceDate := some "2 February 2026" } =
        generateModernInvoicePDF cfgUnit fmtId "9 April 2027"
          { lineItems := [{ title := "Work", amount := 10 }]
            invoiceDate := some "2 February 2026" } :=
  ⟨rfl, by decide,
    render_deterministic_given_invoiceDate cfgUnit fmtId "1 March 2026"
      "9 April 2027" _ "2 February 2026" rfl (by decide)⟩

/-- An event stream made only of draws yields exactly one page. -/
theorem toPages_map_draw (cs : List Cmd) :
    toPages (cs.map Event.draw) = [cs] := by
  have h := toPages_append_draws cs []
  rw [List.append_nil] at h
  rw [h]
  simp [toPages]

/-- Claim C10: the legacy generateInvoicePDF never paginates - for every
environment and input it emits exactly one A4 page, and overflowing content
is simply drawn at ever-lower coordinates on that page: a thirty-item input
places draw commands at negative vertical positions. -/
theorem legacy_single_page_ever_lower :
    (∀ (env : LegacyEnv) (d : InvoiceData),
      (generateInvoicePDF env d).length = 1) ∧
    0 < ((generateInvoicePDF envUnit dataLegacyBig).headD []).countP
        (fun c => decide (cmdY c < 0)) := by
  constructor
  · intro env d
    rw [generateInvoicePDF, toPages_map_draw]
    rfl
  · with_unfolding_all decide

end E2W
